import Mathlib

/-!
Verification of the ai-studio-bridge response-ingestion and patch-application
engine (src/unnamed/part_004).  Strings are modelled as `List Char`; the
JavaScript functions are translated into executable Lean definitions and the
spec's claims are settled as theorems about them.
-/

namespace AIBridge

abbrev Str := List Char

/-- `s.replace(/\r\n/g, '\n')` : left-to-right non-overlapping replacement of
CRLF by LF, as done by `normalize` inside `applySearchReplace`. -/
def normalizeLE : Str → Str
  | [] => []
  | '\r' :: '\n' :: t => '\n' :: normalizeLE t
  | c :: t => c :: normalizeLE t

/-- The literal `<<<<<<< SEARCH` marker (14 characters). -/
def markS : Str := "<<<<<<< SEARCH".data

/-- The literal `=======` marker (7 characters). -/
def markE : Str := "=======".data

/-- The literal `>>>>>>> REPLACE` marker (15 characters). -/
def markR : Str := ">>>>>>> REPLACE".data

/-- `\r?\n` : consume a CRLF or LF at the head, returning the rest. -/
def nlMatch : Str → Option Str
  | '\r' :: '\n' :: t => some t
  | '\n' :: t => some t
  | _ => none

/-- `\r?\n=======\r?\n` : the separator between the search part and the
replace part of a block, as in the regex of `applySearchReplace`. -/
def sep1Match (s : Str) : Option Str :=
  match nlMatch s with
  | none => none
  | some s1 => if markE.isPrefixOf s1 then nlMatch (s1.drop 7) else none

/-- `\r?\n>>>>>>> REPLACE` : the terminator of a block. -/
def termMatch (s : Str) : Option Str :=
  match nlMatch s with
  | none => none
  | some s1 => if markR.isPrefixOf s1 then some (s1.drop 15) else none

/-- Lazily scan for the first position where the block terminator matches;
returns the text before it (the replace capture) and the text after it.
Models the non-greedy `([\s\S]*?)\r?\n>>>>>>> REPLACE` part of the regex. -/
def findTerm : Str → Option (Str × Str)
  | [] => none
  | c :: t =>
    match termMatch (c :: t) with
    | some rest => some ([], rest)
    | none => (findTerm t).map (fun p => (c :: p.1, p.2))

/-- Lazily scan for the first position where the search/replace separator
matches and is followed by a successful terminator scan; returns the search
capture, the replace capture and the rest.  Models the backtracking of
`([\s\S]*?)\r?\n=======\r?\n([\s\S]*?)\r?\n>>>>>>> REPLACE`. -/
def findSep1 : Str → Option (Str × Str × Str)
  | [] => none
  | c :: t =>
    match (sep1Match (c :: t)).bind findTerm with
    | some (rep, rest) => some ([], rep, rest)
    | none => (findSep1 t).map (fun p => (c :: p.1, p.2.1, p.2.2))

/-- After an occurrence of `<<<<<<< SEARCH` at the head of `c :: t` (so that
`t` starts with the remaining 13 marker characters), try to complete the block
match: a newline, then the search capture, separator, replace capture and
terminator. -/
def blockAt (t : Str) : Option (Str × Str × Str) :=
  (nlMatch (t.drop 13)).bind findSep1

/-- Fuel-driven worker for `parseBlocks`; the fuel only ever needs to cover the
length of the text, and is threaded to keep the recursion structural. -/
def parseBlocksF : Nat → Str → List (Str × Str)
  | _, [] => []
  | 0, _ :: _ => []
  | fuel + 1, c :: t =>
    if markS.isPrefixOf (c :: t) then
      match blockAt t with
      | some (se, rep, rest) => (se, rep) :: parseBlocksF fuel rest
      | none => parseBlocksF fuel t
    else parseBlocksF fuel t

/-- Successive matches of the block regex
`/<<<<<<< SEARCH\r?\n([\s\S]*?)\r?\n=======\r?\n([\s\S]*?)\r?\n>>>>>>> REPLACE/g`
over the diff text, as enumerated by the `while ((match = blockRegex.exec(diff)))`
loop of `applySearchReplace`: leftmost-first, non-overlapping, each later
search resuming after the end of the previous match. -/
def parseBlocks (s : Str) : List (Str × Str) :=
  parseBlocksF s.length s

/-- `content.indexOf(pat)` made structural: split at the first occurrence of
`pat`, returning the part strictly before it and the part strictly after it
(`none` when there is no occurrence; an empty pattern matches at index 0). -/
def splitFirst (pat : Str) : Str → Option (Str × Str)
  | [] => if pat.isPrefixOf [] then some ([], []) else none
  | c :: t =>
    if pat.isPrefixOf (c :: t) then some ([], (c :: t).drop pat.length)
    else (splitFirst pat t).map (fun p => (c :: p.1, p.2))

/-- One iteration of the loop body of `applySearchReplace`: normalize the
current content and the search text, splice the replacement at the first
occurrence, or leave the content untouched and count one warning
(`showWarningMessage`). -/
def applyBlock (st : Str × Nat) (b : Str × Str) : Str × Nat :=
  match splitFirst (normalizeLE b.1) (normalizeLE st.1) with
  | some (pre, post) => (pre ++ b.2 ++ post, st.2)
  | none => (st.1, st.2 + 1)

/-- `applySearchReplace(original, diff)` from the source, paired with the
number of "Could not find SEARCH block" warnings it raises. -/
def applySearchReplace (original diff : Str) : Str × Nat :=
  (parseBlocks diff).foldl applyBlock (original, 0)

/-! ### Patch-envelope conversion (`patchEnvelopeToDiffForFile`) -/

/-- `parts.join('\n')`. -/
def joinLF : List Str → Str
  | [] => []
  | [x] => x
  | x :: y :: xs => x ++ '\n' :: joinLF (y :: xs)

/-- `s.split('\n')`. -/
def splitLF : Str → List Str
  | [] => [[]]
  | '\n' :: t => [] :: splitLF t
  | c :: t =>
    match splitLF t with
    | [] => [[c]]
    | x :: xs => (c :: x) :: xs

/-- `s.split(/\r?\n/)`: both CRLF and LF act as delimiters, a CR not followed
by LF stays inside its piece. -/
def splitCRLF : Str → List Str
  | [] => [[]]
  | '\r' :: '\n' :: t => [] :: splitCRLF t
  | '\n' :: t => [] :: splitCRLF t
  | c :: t =>
    match splitCRLF t with
    | [] => [[c]]
    | x :: xs => (c :: x) :: xs

/-- The rendered text of one search/replace block,
`'<<<<<<< SEARCH\n' + search + '\n=======\n' + replace + '\n>>>>>>> REPLACE'`. -/
def renderBlock (b : Str × Str) : Str :=
  markS ++ '\n' :: b.1 ++ '\n' :: markE ++ '\n' :: b.2 ++ '\n' :: markR

/-- The body of `pushBlock` applied to one hunk's collected lines: join them,
re-split on LF, route space-prefixed lines to both sides, `-` lines to the
search side and `+` lines to the replace side, and join each side with LF. -/
def hunkBlock (collects : List Str) : Str × Str :=
  let hLines := splitLF (joinLF collects)
  (joinLF (hLines.filterMap (fun l =>
      match l with
      | ' ' :: r => some r
      | '-' :: r => some r
      | _ => none)),
   joinLF (hLines.filterMap (fun l =>
      match l with
      | ' ' :: r => some r
      | '+' :: r => some r
      | _ => none)))

/-- The literal `*** Update File:` marker (16 characters). -/
def updMark : Str := "*** Update File:".data

/-- The literal `*** End Patch` marker. -/
def endMark : Str := "*** End Patch".data

/-- JavaScript-style whitespace test used by `trim()` / `\s`, restricted to
the ASCII whitespace characters (the exotic Unicode spaces JavaScript also
accepts are not modelled). -/
def isWS (c : Char) : Bool :=
  c == ' ' || c == '\t' || c == '\n' || c == '\r' || c == '\x0b' || c == '\x0c'

/-- `s.trim()`. -/
def trimStr (s : Str) : Str :=
  ((s.dropWhile isWS).reverse.dropWhile isWS).reverse

/-- The line-scanning loop of `patchEnvelopeToDiffForFile`, returning the
hunks (each a list of collected lines) in emission order.  On an
`*** Update File:` line the section flag is recomputed (the line is stripped of
that prefix — its first occurrence, which is at position 0 — and trimmed);
outside the matching section lines are skipped; `@@` flushes the pending hunk;
`*** End Patch` inside the section breaks the loop; space/`-`/`+` lines are
collected; pending lines are flushed at the end. -/
def collectHunksAux (target : Str) : List Str → Bool → List Str → List (List Str)
  | [], _, collects => if collects.isEmpty then [] else [collects]
  | l :: ls, inUpdate, collects =>
    if updMark.isPrefixOf l then
      collectHunksAux target ls (trimStr (l.drop 16) == target) collects
    else if !inUpdate then
      collectHunksAux target ls inUpdate collects
    else if ['@', '@'].isPrefixOf l then
      (if collects.isEmpty then [] else [collects]) ++ collectHunksAux target ls inUpdate []
    else if endMark.isPrefixOf l then
      (if collects.isEmpty then [] else [collects])
    else if (match l with | ' ' :: _ => true | '-' :: _ => true | '+' :: _ => true | _ => false) then
      collectHunksAux target ls inUpdate (collects ++ [l])
    else
      collectHunksAux target ls inUpdate collects

/-- The hunks of the section of `patch` addressed to `target`. -/
def patchHunks (patch target : Str) : List (List Str) :=
  collectHunksAux target (splitCRLF patch) false []

/-- The search/replace pairs derived from those hunks. -/
def patchBlocks (patch target : Str) : List (Str × Str) :=
  (patchHunks patch target).map hunkBlock

/-- `patchEnvelopeToDiffForFile(patch, targetFile)` from the source:
each hunk rendered as a search/replace block, joined with `'\n'`. -/
def patchEnvelopeToDiffForFile (patch target : Str) : Str :=
  joinLF ((patchBlocks patch target).map renderBlock)

/-! ### Per-edit application (`handleAIResponse`, lines 285–294) -/

/-- The three recognized values of an edit's `type` field. -/
inductive CType
  | fullRewrite
  | diff
  | patch
deriving DecidableEq, Repr

/-- A well-typed code change `{file_path, type, content}`; the grouping loop
of the `COMPLETED` branch keeps exactly the changes whose `type` is
`FULL_REWRITE`, `DIFF` or `PATCH`. -/
structure Change where
  ctype : CType
  file_path : Str
  content : Str
deriving DecidableEq, Repr

/-- One iteration of the per-file edit loop: later edits apply to the result
of earlier ones; the warning count accumulates the unresolved-search-block
warnings of the diff kinds. -/
def applyEditStep (working : Str × Nat) (ch : Change) : Str × Nat :=
  match ch.ctype with
  | .fullRewrite => (ch.content, working.2)
  | .diff =>
    let r := applySearchReplace working.1 ch.content
    (r.1, working.2 + r.2)
  | .patch =>
    let r := applySearchReplace working.1 (patchEnvelopeToDiffForFile ch.content ch.file_path)
    (r.1, working.2 + r.2)

/-! ### Round-trip: parsing a rendered block list recovers the blocks -/

/-- The separator literal `"\n=======\n"`. -/
def sepMid : Str := '\n' :: markE ++ ['\n']

/-- The terminator literal `"\n>>>>>>> REPLACE"`. -/
def sepEnd : Str := '\n' :: markR

/-- A search text that the rendered block regex can re-parse faithfully:
no carriage returns, no internal `"\n=======\n"` separator and no trailing
`"\n======="`. -/
def GoodSearch (s : Str) : Prop :=
  '\r' ∉ s ∧ ¬ sepMid <:+: s ∧ ¬ ('\n' :: markE) <:+ s

/-- A replace text that the rendered block regex can re-parse faithfully:
no carriage returns and no internal `"\n>>>>>>> REPLACE"` terminator. -/
def GoodReplace (r : Str) : Prop :=
  '\r' ∉ r ∧ ¬ sepEnd <:+: r

/-- The 13 marker characters that follow the leading `<` of `markS`. -/
def markS1 : Str := "<<<<<< SEARCH".data

/-! ### JSON values and the strict `JSON.parse` model

JavaScript numbers are IEEE doubles; none of the claims compares numeric
values, so a number is modelled by its source lexeme.  Objects are assoc
lists; duplicate keys overwrite in place (last value, first position), as JS
object construction does. -/

inductive JVal
  | jnull
  | jbool (b : Bool)
  | jnum (lexeme : Str)
  | jstr (s : Str)
  | jarr (xs : List JVal)
  | jobj (fields : List (Str × JVal))

/-- JSON insignificant whitespace (RFC 8259: space, tab, LF, CR). -/
def jsonWS (c : Char) : Bool :=
  c == ' ' || c == '\t' || c == '\n' || c == '\r'

def skipWs (s : Str) : Str := s.dropWhile jsonWS

/-- Set a key in an assoc list: overwrite in place if present, else append
(JS object key semantics, used both for duplicate keys during parsing and for
the `{...parsed, status: 'COMPLETED'}` spread). -/
def setField (fs : List (Str × JVal)) (k : Str) (v : JVal) : List (Str × JVal) :=
  match fs with
  | [] => [(k, v)]
  | (k1, v1) :: rest => if k1 = k then (k, v) :: rest else (k1, v1) :: setField rest k v

/-- Look a key up in an assoc list (keys are unique by construction). -/
def getField (fs : List (Str × JVal)) (k : Str) : Option JVal :=
  match fs with
  | [] => none
  | (k1, v1) :: rest => if k1 = k then some v1 else getField rest k

def hexVal (c : Char) : Option Nat :=
  if '0' ≤ c ∧ c ≤ '9' then some (c.toNat - '0'.toNat)
  else if 'a' ≤ c ∧ c ≤ 'f' then some (c.toNat - 'a'.toNat + 10)
  else if 'A' ≤ c ∧ c ≤ 'F' then some (c.toNat - 'A'.toNat + 10)
  else none

/-- Body of a JSON string after the opening quote: stops at the closing quote,
decodes the escapes, rejects raw control characters.  A `\uXXXX` escape
denoting a surrogate half is rejected (Lean characters are scalar values;
no claim exercises surrogates). -/
def parseStrBody : Str → Option (Str × Str)
  | [] => none
  | '"' :: t => some ([], t)
  | '\\' :: '"' :: t => (parseStrBody t).map (fun p => ('"' :: p.1, p.2))
  | '\\' :: '\\' :: t => (parseStrBody t).map (fun p => ('\\' :: p.1, p.2))
  | '\\' :: '/' :: t => (parseStrBody t).map (fun p => ('/' :: p.1, p.2))
  | '\\' :: 'b' :: t => (parseStrBody t).map (fun p => ('\x08' :: p.1, p.2))
  | '\\' :: 'f' :: t => (parseStrBody t).map (fun p => ('\x0c' :: p.1, p.2))
  | '\\' :: 'n' :: t => (parseStrBody t).map (fun p => ('\n' :: p.1, p.2))
  | '\\' :: 'r' :: t => (parseStrBody t).map (fun p => ('\r' :: p.1, p.2))
  | '\\' :: 't' :: t => (parseStrBody t).map (fun p => ('\t' :: p.1, p.2))
  | '\\' :: 'u' :: h1 :: h2 :: h3 :: h4 :: t4 =>
    (match hexVal h1, hexVal h2, hexVal h3, hexVal h4 with
      | some a, some b, some c, some d =>
        let code := ((a * 16 + b) * 16 + c) * 16 + d
        if code < 0xd800 then
          (parseStrBody t4).map (fun p => (Char.ofNat code :: p.1, p.2))
        else if 0xdfff < code then
          (parseStrBody t4).map (fun p => (Char.ofNat code :: p.1, p.2))
        else none
      | _, _, _, _ => none)
  | ['\\'] => none
  | '\\' :: _ :: _ => none
  | c :: t =>
    if c.toNat < 0x20 then none
    else (parseStrBody t).map (fun p => (c :: p.1, p.2))

def isDigit (c : Char) : Bool := '0' ≤ c && c ≤ '9'

/-- Exponent digits of a JSON number, with optional sign. -/
def lexExpDigits (acc : Str) (s : Str) : Option (Str × Str) :=
  let (sgn, s1) := match s with
    | '+' :: t => ((['+'] : Str), t)
    | '-' :: t => ((['-'] : Str), t)
    | _ => (([] : Str), s)
  match s1.takeWhile isDigit with
  | [] => none
  | ds => some (acc ++ sgn ++ ds, s1.dropWhile isDigit)

/-- Optional exponent part of a JSON number. -/
def lexExp (acc : Str) (s : Str) : Option (Str × Str) :=
  match s with
  | 'e' :: t => lexExpDigits (acc ++ ['e']) t
  | 'E' :: t => lexExpDigits (acc ++ ['E']) t
  | _ => some (acc, s)

/-- Optional fraction part of a JSON number. -/
def lexFrac (acc : Str) (s : Str) : Option (Str × Str) :=
  match s with
  | '.' :: t =>
    match t.takeWhile isDigit with
    | [] => none
    | ds => lexExp (acc ++ '.' :: ds) (t.dropWhile isDigit)
  | _ => lexExp acc s

/-- Lex a JSON number starting at the given text (which must begin with `-`
or a digit); returns the lexeme and the rest, enforcing the JSON grammar
`-? (0 | [1-9][0-9]*) (\.[0-9]+)? ([eE][+-]?[0-9]+)?`. -/
def lexNumber (s : Str) : Option (Str × Str) :=
  let (neg, s1) := match s with
    | '-' :: t => (['-'], t)
    | _ => (([] : Str), s)
  match s1 with
  | '0' :: t => lexFrac (neg ++ ['0']) t
  | c :: t =>
    if isDigit c then
      let ds := t.takeWhile isDigit
      lexFrac (neg ++ c :: ds) (t.dropWhile isDigit)
    else none
  | [] => none

mutual

/-- Recursive-descent strict JSON parser.  The fuel argument only bounds the
recursion depth (every recursive call strictly decreases it); callers pass
`2 * length + 2`, which always suffices since every two fuel steps consume at
least one character. -/
def parseVal : Nat → Str → Option (JVal × Str)
  | 0, _ => none
  | fuel + 1, s =>
    match skipWs s with
    | [] => none
    | c :: t =>
      if c = 'n' then
        if "ull".data.isPrefixOf t then some (.jnull, t.drop 3) else none
      else if c = 't' then
        if "rue".data.isPrefixOf t then some (.jbool true, t.drop 3) else none
      else if c = 'f' then
        if "alse".data.isPrefixOf t then some (.jbool false, t.drop 4) else none
      else if c = '"' then
        (parseStrBody t).map (fun p => (.jstr p.1, p.2))
      else if c = '[' then
        match skipWs t with
        | ']' :: t2 => some (.jarr [], t2)
        | _ => (parseItems fuel (skipWs t)).map (fun p => (.jarr p.1, p.2))
      else if c = '{' then
        match skipWs t with
        | '}' :: t2 => some (.jobj [], t2)
        | _ => (parseFields fuel [] (skipWs t)).map (fun p => (.jobj p.1, p.2))
      else if c = '-' || isDigit c then
        (lexNumber (c :: t)).map (fun p => (.jnum p.1, p.2))
      else none

/-- Items of a non-empty array, the next item expected first. -/
def parseItems : Nat → Str → Option (List JVal × Str)
  | 0, _ => none
  | fuel + 1, s =>
    match parseVal fuel s with
    | none => none
    | some (v, rest) =>
      match skipWs rest with
      | ',' :: t => (parseItems fuel t).map (fun p => (v :: p.1, p.2))
      | ']' :: t => some ([v], t)
      | _ => none

/-- Members of a non-empty object, the next `"key": value` expected first;
duplicate keys overwrite in place via `setField`. -/
def parseFields : Nat → List (Str × JVal) → Str → Option (List (Str × JVal) × Str)
  | 0, _, _ => none
  | fuel + 1, acc, s =>
    match skipWs s with
    | '"' :: t =>
      match parseStrBody t with
      | none => none
      | some (k, rest) =>
        match skipWs rest with
        | ':' :: t2 =>
          match parseVal fuel t2 with
          | none => none
          | some (v, rest2) =>
            match skipWs rest2 with
            | ',' :: t3 => parseFields fuel (setField acc k v) t3
            | '}' :: t3 => some (setField acc k v, t3)
            | _ => none
        | _ => none
    | _ => none

end

/-- `JSON.parse(s)`: parse one value, then require only whitespace after it. -/
def jparse (s : Str) : Option JVal :=
  match parseVal (2 * s.length + 2) s with
  | some (v, rest) => if skipWs rest = [] then some v else none
  | none => none

/-! ### `normalizeJsonLikeResponse` (the `"content"` diff-literal repair) -/

/-- The literal `"content"` (with its quotes). -/
def keyLit : Str := "\"content\"".data

/-- The terminator `>>>>>>> REPLACE"` of the repair regex's lazy group. -/
def qTerm : Str := markR ++ ['"']

/-- `\s*` followed by a literal colon. -/
def wsColon (s : Str) : Option Str :=
  match s.dropWhile isWS with
  | ':' :: t => some t
  | _ => none

/-- `\s*` followed by a literal double quote. -/
def wsQuote (s : Str) : Option Str :=
  match s.dropWhile isWS with
  | '"' :: t => some t
  | _ => none

/-- Match the repair regex
`/"content"\s*:\s*"(<<<<<<< SEARCH[\s\S]*?>>>>>>> REPLACE)"/` at the start of
the text: on success, the capture group (the diff literal including both
markers) and the rest of the text after the closing quote. -/
def matchOcc (s : Str) : Option (Str × Str) :=
  if keyLit.isPrefixOf s then
    (wsColon (s.drop 9)).bind fun s2 =>
    (wsQuote s2).bind fun s4 =>
    if markS.isPrefixOf s4 then
      (splitFirst qTerm (s4.drop 14)).map fun p => (markS ++ p.1 ++ markR, p.2)
    else none
  else none

/-- `g1.replace(/\\/g, "\\\\")`: double every backslash. -/
def escBack : Str → Str
  | [] => []
  | c :: t => if c = '\\' then '\\' :: '\\' :: escBack t else c :: escBack t

/-- `.replace(/"/g, '\\"')`: escape every double quote. -/
def escQuote : Str → Str
  | [] => []
  | c :: t => if c = '"' then '\\' :: '"' :: escQuote t else c :: escQuote t

/-- The escaping applied to the captured diff literal. -/
def escDiff (g : Str) : Str := escQuote (escBack g)

/-- Specification-level restatement of the repair's escaping, worded per
character: every backslash is doubled, every double quote is escaped, every
other character (raw newlines included) is kept as itself.  It is compared
with `escDiff`, the composition of the two `replace` calls of the source. -/
def escSpec : Str → Str
  | [] => []
  | c :: t =>
    (if c = '\\' then ['\\', '\\'] else if c = '"' then ['\\', '"'] else [c]) ++ escSpec t

/-- The replacement text `'"content":"' + esc + '"'`. -/
def replOcc (g : Str) : Str := "\"content\":\"".data ++ escDiff g ++ ['"']

/-- Fuel-driven worker for `normalizeJsonLikeResponse` (left-to-right
non-overlapping `String.replace` with a global regex). -/
def njlrF : Nat → Str → Str
  | _, [] => []
  | 0, s => s
  | fuel + 1, c :: t =>
    match matchOcc (c :: t) with
    | some (g, rest) => replOcc g ++ njlrF fuel rest
    | none => c :: njlrF fuel t

/-- `normalizeJsonLikeResponse(t)` from the source. -/
def normalizeJsonLikeResponse (s : Str) : Str := njlrF s.length s

/-! ### Candidate extraction and first-successful-parse (`handleAIResponse`) -/

/-- The fence literal: three backticks. -/
def fenceLit : Str := ['\x60', '\x60', '\x60']

/-- `inner.replace(/^json\s*/, '')`: strip a leading `json` tag and following
whitespace (the regex also matches with zero whitespace). -/
def stripJsonTag (s : Str) : Str :=
  if "json".data.isPrefixOf s then (s.drop 4).dropWhile isWS else s

/-- `t.replace(/^```(json)?\s*/, '')`. -/
def stripLeadFence (s : Str) : Str :=
  if fenceLit.isPrefixOf s then
    let s1 := s.drop 3
    if "json".data.isPrefixOf s1 then (s1.drop 4).dropWhile isWS
    else s1.dropWhile isWS
  else s

/-- `t.replace(/\s*```$/, '')`: strip a trailing fence and the whitespace
before it. -/
def stripTrailFence (s : Str) : Str :=
  if fenceLit.isPrefixOf s.reverse then
    ((s.take (s.length - 3)).reverse.dropWhile isWS).reverse
  else s

/-- The fence-derived candidate, when `t.indexOf('```')` succeeds: either the
interior of the first fenced block (tag-stripped and trimmed), or — when no
closing fence exists — the whole text with one leading/trailing fence marker
stripped, trimmed. -/
def fenceCandidates (t : Str) : List Str :=
  match splitFirst fenceLit t with
  | none => []
  | some (_, afterOpen) =>
    match splitFirst fenceLit afterOpen with
    | some (inner, _) => [trimStr (stripJsonTag (trimStr inner))]
    | none => [trimStr (stripTrailFence (stripLeadFence t))]

/-- `t.substring(t.indexOf('['), t.lastIndexOf(']') + 1)` when both exist in
order, as a candidate; likewise for braces. -/
def bracketCandidate (t : Str) (openC closeC : Char) : List Str :=
  match splitFirst [openC] t with
  | none => []
  | some (pre, _) =>
    match splitFirst [closeC] t.reverse with
    | none => []
    | some (sufRev, _) =>
      let bStart := pre.length
      let bEnd := t.length - 1 - sufRev.length
      if bStart < bEnd then [(t.drop bStart).take (bEnd + 1 - bStart)] else []

/-- The ordered candidate list built by `handleAIResponse` from the
normalized text `t`: the fence candidate (if a fence exists), then `t`
itself, then the first-`[`-to-last-`]` span, then the first-`{`-to-last-`}`
span. -/
def candidatesOf (t : Str) : List Str :=
  fenceCandidates t ++ [t] ++ bracketCandidate t '[' ']' ++ bracketCandidate t '{' '}'

/-- The `for (const c of candidates)` loop: skip empty candidates, return the
first strict-JSON-parse success. -/
def firstParse : List Str → Option JVal
  | [] => none
  | c :: cs =>
    if c = [] then firstParse cs
    else
      match jparse c with
      | some v => some v
      | none => firstParse cs

/-- Everything `handleAIResponse` does to the pasted text before looking at
`status`: trim, repair unescaped diff literals, extract candidates, first
parse wins. -/
def parseStage (input : Str) : Option JVal :=
  firstParse (candidatesOf (normalizeJsonLikeResponse (trimStr input)))

/-- The post-parse coercion (lines 248–254): a bare array becomes a
`COMPLETED` object carrying it as `code_changes`; an object with a falsy
`status` but an array `code_changes` gets `status` set to `COMPLETED`
(spread keeps the other fields); anything else is used as-is. -/
def coerce (v : JVal) : JVal :=
  match v with
  | .jarr xs =>
    .jobj [("status".data, .jstr "COMPLETED".data), ("code_changes".data, .jarr xs)]
  | .jobj fs =>
    let st := getField fs "status".data
    let truthy := match st with
      | none => false
      | some .jnull => false
      | some (.jbool b) => b
      | some (.jstr s) => !s.isEmpty
      | some (.jnum lex) =>
        !(lex.takeWhile (fun c => c != 'e' && c != 'E')).all
          (fun c => c == '0' || c == '-' || c == '.')
      | some (.jarr _) => true
      | some (.jobj _) => true
    let ccArr := match getField fs "code_changes".data with
      | some (.jarr _) => true
      | _ => false
    if !truthy && ccArr then
      .jobj (setField fs "status".data (.jstr "COMPLETED".data))
    else v
  | _ => v

/-! ### The handler state machine (`handleAIResponse`) -/

/-- The staging state the handler mutates: the current round index and, for
each staged round, the logical names of the files it contains
(`_PROJECT_STRUCTURE.txt` plus project-relative paths). -/
structure StagingState where
  round : Nat
  rounds : List (Nat × List Str)
deriving Repr

/-- Look up a staged round by index. -/
def lookupRound (rs : List (Nat × List Str)) (n : Nat) : Option (List Str) :=
  match rs with
  | [] => none
  | (k, fs) :: rest => if k = n then some fs else lookupRound rest n

/-- Workspace content lookup (the `fs.existsSync` / document-read
collaborator). -/
def wsLookup (ws : List (Str × Str)) (p : Str) : Option Str :=
  match ws with
  | [] => none
  | (k, v) :: rest => if k = p then some v else wsLookup rest p

def wsExists (ws : List (Str × Str)) (p : Str) : Bool :=
  (wsLookup ws p).isSome

/-- What one `handleAIResponse` invocation does, as data: the returned
`action`, the staging state afterwards, the workspace writes of the single
`WorkspaceEdit`, the per-batch success count and the numbers of
`showWarningMessage` / `showErrorMessage` calls. -/
structure HandleResult where
  action : Str
  round : Nat
  rounds : List (Nat × List Str)
  wsWrites : List (Str × Str)
  appliedCount : Nat
  warnings : Nat
  errors : Nat
deriving Repr

/-- Map a `type` string to the recognized edit kinds. -/
def ctypeOf (s : Str) : Option CType :=
  if s = "FULL_REWRITE".data then some CType.fullRewrite
  else if s = "DIFF".data then some CType.diff
  else if s = "PATCH".data then some CType.patch
  else none

/-- The per-element behaviour of the grouping loop (lines 266–271): a `null`
element throws (`change.type` on `null`, outside any try) — modelled as
`Except.error`; an element whose `type` is not one of the three recognized
strings is dropped; a recognized element is kept.  A recognized element whose
`file_path` or `content` is not a string is outside this embedding (the code
would feed non-strings into `path.join`/`WorkspaceEdit`) and is also mapped to
`Except.error`; every theorem below stays inside the well-typed fragment. -/
def toChange (v : JVal) : Except Unit (Option Change) :=
  match v with
  | .jnull => .error ()
  | .jobj fs =>
    match getField fs "type".data with
    | some (.jstr ty) =>
      match ctypeOf ty with
      | none => .ok none
      | some ct =>
        match getField fs "file_path".data, getField fs "content".data with
        | some (.jstr fp), some (.jstr body) => .ok (some ⟨ct, fp, body⟩)
        | _, _ => .error ()
    | _ => .ok none
  | _ => .ok none

/-- Filter/validate a whole `code_changes` array. -/
def toChanges : List JVal → Except Unit (List Change)
  | [] => .ok []
  | v :: vs =>
    match toChange v with
    | .error _ => .error ()
    | .ok none => toChanges vs
    | .ok (some c) => (toChanges vs).map (fun l => c :: l)

/-- Insert a change into the by-file grouping, preserving first-seen file
order and in-file change order (the `Map`/`push` pattern of the source). -/
def insertChange (acc : List (Str × List Change)) (c : Change) : List (Str × List Change) :=
  match acc with
  | [] => [(c.file_path, [c])]
  | (k, l) :: rest =>
    if k = c.file_path then (k, l ++ [c]) :: rest
    else (k, l) :: insertChange rest c

def groupByFile (cs : List Change) : List (Str × List Change) :=
  cs.foldl insertChange []

/-- Process one grouped file: seed with the current on-disk content (empty
when the file does not exist), fold the edits, return the write and the
number of unresolved-search-block warnings. -/
def processFile (ws : List (Str × Str)) (g : Str × List Change) : (Str × Str) × Nat :=
  let r := g.2.foldl applyEditStep ((wsLookup ws g.1).getD [], 0)
  ((g.1, r.1), r.2)

/-- `data.status` read on the coerced value: `null` throws (TypeError);
an object yields its `status` field when that is a string; any other value
(or a non-string field) compares unequal to both status literals. -/
def statusOf (v : JVal) : Except Unit (Option Str) :=
  match v with
  | .jnull => .error ()
  | .jobj fs =>
    .ok (match getField fs "status".data with
      | some (.jstr s) => some s
      | _ => none)
  | _ => .ok none

/-- `data.code_changes && Array.isArray(data.code_changes)`. -/
def ccField (v : JVal) : Option (List JVal) :=
  match v with
  | .jobj fs =>
    match getField fs "code_changes".data with
    | some (.jarr xs) => some xs
    | _ => none
  | _ => none

/-- `data.request_files && Array.isArray(data.request_files)`. -/
def reqField (v : JVal) : Option (List JVal) :=
  match v with
  | .jobj fs =>
    match getField fs "request_files".data with
    | some (.jarr xs) => some xs
    | _ => none
  | _ => none

/-- The `request_files` loop: `path.join` throws on a non-string entry
(before any existence check); a string entry is staged exactly when it exists
in the workspace. -/
def reqPaths (ws : List (Str × Str)) : List JVal → Except Unit (List Str)
  | [] => .ok []
  | .jstr p :: vs =>
    (reqPaths ws vs).map (fun l => if wsExists ws p then p :: l else l)
  | _ :: _ => .error ()

/-- The name under which the project tree is staged. -/
def structName : Str := "_PROJECT_STRUCTURE.txt".data

/-- The `COMPLETED` branch once the typed changes are known: group by file,
apply edit folds, count every grouped file as applied (the per-file try/catch
cannot fire in this pure model: directory creation and document opening are
abstracted away and `applyEdit` is modelled as succeeding), then snapshot a
new round holding the modified files (all of which exist on disk after the
edit, created files included). -/
def completedBranch (ws : List (Str × Str)) (st : StagingState) (cs : List Change) :
    HandleResult :=
  let groups := groupByFile cs
  let results := groups.map (processFile ws)
  if groups.length > 0 then
    { action := "COMPLETED".data
      round := st.round + 1
      rounds := st.rounds ++ [(st.round + 1, groups.map (fun g => g.1))]
      wsWrites := results.map (fun r => r.1)
      appliedCount := groups.length
      warnings := (results.map (fun r => r.2)).sum
      errors := 0 }
  else
    { action := "COMPLETED".data, round := st.round, rounds := st.rounds
      wsWrites := [], appliedCount := 0, warnings := 1, errors := 0 }

/-- The `NEED_CONTEXT` branch: bump the round, carry over round 1's
project-structure listing when it exists (the source always copies from
`round_1`, not from the immediately preceding round), then stage the
requested files that exist. -/
def needContextBranch (st : StagingState) (staged : List Str) : HandleResult :=
  { action := "NEED_CONTEXT".data
    round := st.round + 1
    rounds := st.rounds ++ [(st.round + 1, staged)]
    wsWrites := [], appliedCount := 0, warnings := 0, errors := 0 }

/-- The carried-over structure listing: present iff `round_1` in the staging
area has a `_PROJECT_STRUCTURE.txt`. -/
def structPart (st : StagingState) : List Str :=
  match lookupRound st.rounds 1 with
  | some fs => if structName ∈ fs then [structName] else []
  | none => []

/-- `handleAIResponse(jsonText, workspaceRoot, goal)` as a pure state
transformer over the staging state and the workspace.  `Except.error` models
an uncaught JavaScript `TypeError` escaping the handler. -/
def handleAIResponse (ws : List (Str × Str)) (st : StagingState) (input : Str) :
    Except Unit HandleResult :=
  match parseStage input with
  | none =>
    .ok { action := "ERROR".data, round := st.round, rounds := st.rounds
          wsWrites := [], appliedCount := 0, warnings := 0, errors := 1 }
  | some parsed =>
    let data := coerce parsed
    match statusOf data with
    | .error _ => .error ()
    | .ok stv =>
      if stv = some "COMPLETED".data then
        match ccField data with
        | some vs =>
          match toChanges vs with
          | .error _ => .error ()
          | .ok cs => .ok (completedBranch ws st cs)
        | none =>
          .ok { action := "COMPLETED".data, round := st.round, rounds := st.rounds
                wsWrites := [], appliedCount := 0, warnings := 1, errors := 0 }
      else if stv = some "NEED_CONTEXT".data then
        match reqField data with
        | some vs =>
          match reqPaths ws vs with
          | .error _ => .error ()
          | .ok files => .ok (needContextBranch st (structPart st ++ files))
        | none => .ok (needContextBranch st (structPart st))
      else
        .ok { action := "UNKNOWN".data, round := st.round, rounds := st.rounds
              wsWrites := [], appliedCount := 0, warnings := 1, errors := 0 }

theorem nlMatch_length {s t : Str} (h : nlMatch s = some t) : t.length < s.length := by
  unfold nlMatch at h
  split at h
  · cases h; simp only [List.length_cons]; omega
  · cases h; simp only [List.length_cons]; omega
  · cases h

theorem termMatch_length {s t : Str} (h : termMatch s = some t) : t.length < s.length := by
  unfold termMatch at h
  split at h
  · cases h
  · rename_i s1 hn
    split at h
    · cases h
      have h1 := nlMatch_length hn
      have h2 : (s1.drop 15).length ≤ s1.length := by
        simp only [List.length_drop]; omega
      omega
    · cases h

theorem sep1Match_length {s t : Str} (h : sep1Match s = some t) : t.length < s.length := by
  unfold sep1Match at h
  split at h
  · cases h
  · rename_i s1 hn
    split at h
    · have h1 := nlMatch_length hn
      have h2 := nlMatch_length h
      have h3 : (s1.drop 7).length ≤ s1.length := by
        simp only [List.length_drop]; omega
      omega
    · cases h

theorem findTerm_length {s : Str} {a rest : Str} (h : findTerm s = some (a, rest)) :
    rest.length < s.length := by
  induction s generalizing a with
  | nil => cases h
  | cons c t ih =>
    unfold findTerm at h
    split at h
    · rename_i rest' ht
      cases h
      exact termMatch_length ht
    · rename_i ht
      cases hf : findTerm t with
      | none => rw [hf] at h; cases h
      | some p =>
        obtain ⟨p1, p2⟩ := p
        rw [hf] at h
        simp only [Option.map_some', Option.some.injEq, Prod.mk.injEq] at h
        obtain ⟨ha, hr⟩ := h
        subst hr
        have := ih hf
        simp only [List.length_cons]
        omega

theorem findSep1_length {s : Str} {a b rest : Str} (h : findSep1 s = some (a, b, rest)) :
    rest.length < s.length := by
  induction s generalizing a b with
  | nil => cases h
  | cons c t ih =>
    unfold findSep1 at h
    split at h
    · rename_i rep rest' hb
      cases h
      rw [Option.bind_eq_some] at hb
      obtain ⟨s1, hs, ht⟩ := hb
      have h1 := findTerm_length ht
      have h2 := sep1Match_length hs
      simp only [List.length_cons] at h2 ⊢
      omega
    · rename_i hb
      cases hf : findSep1 t with
      | none => rw [hf] at h; cases h
      | some q =>
        obtain ⟨q1, q2, q3⟩ := q
        rw [hf] at h
        simp only [Option.map_some', Option.some.injEq, Prod.mk.injEq] at h
        obtain ⟨ha, hb2, hr⟩ := h
        subst hr
        have := ih hf
        simp only [List.length_cons]
        omega

theorem blockAt_length {t se rep rest : Str} (h : blockAt t = some (se, rep, rest)) :
    rest.length < t.length := by
  obtain ⟨s1, hn, hf⟩ := Option.bind_eq_some.mp h
  have h1 := findSep1_length hf
  have h2 := nlMatch_length hn
  have h3 : (t.drop 13).length ≤ t.length := by
    simp only [List.length_drop]; omega
  omega

theorem parseBlocksF_congr : ∀ {fuel fuel' : Nat} {s : Str},
    s.length ≤ fuel → s.length ≤ fuel' → parseBlocksF fuel s = parseBlocksF fuel' s := by
  intro fuel
  induction fuel with
  | zero =>
    intro fuel' s hs _
    have : s = [] := List.eq_nil_of_length_eq_zero (Nat.le_zero.mp hs)
    subst this
    cases fuel' <;> rfl
  | succ fuel ih =>
    intro fuel' s hs hs'
    cases s with
    | nil => cases fuel' <;> rfl
    | cons c t =>
      cases fuel' with
      | zero => simp at hs'
      | succ f' =>
        simp only [List.length_cons] at hs hs'
        show parseBlocksF (fuel + 1) (c :: t) = parseBlocksF (f' + 1) (c :: t)
        unfold parseBlocksF
        by_cases hp : markS.isPrefixOf (c :: t)
        · simp only [hp, if_true]
          cases hb : blockAt t with
          | some triple =>
            obtain ⟨se, rep, rest⟩ := triple
            have hr := blockAt_length hb
            simp only [hb]
            show (se, rep) :: parseBlocksF fuel rest = (se, rep) :: parseBlocksF f' rest
            rw [ih (show rest.length ≤ fuel by omega) (show rest.length ≤ f' by omega)]
          | none =>
            simp only [hb]
            show parseBlocksF fuel t = parseBlocksF f' t
            exact ih (by omega) (by omega)
        · simp only [hp, if_false]
          exact ih (by omega) (by omega)

theorem parseBlocks_nil : parseBlocks [] = [] := rfl

theorem parseBlocks_cons_pos {c : Char} {t se rep rest : Str}
    (h1 : markS.isPrefixOf (c :: t) = true) (h2 : blockAt t = some (se, rep, rest)) :
    parseBlocks (c :: t) = (se, rep) :: parseBlocks rest := by
  have hr := blockAt_length h2
  show parseBlocksF (c :: t).length (c :: t) = _
  simp only [List.length_cons]
  unfold parseBlocksF
  simp only [h1, if_true, h2]
  have hc : parseBlocksF t.length rest = parseBlocksF rest.length rest :=
    parseBlocksF_congr (by omega) (le_refl _)
  rw [hc]
  rfl

theorem parseBlocks_cons_none {c : Char} {t : Str} (h2 : blockAt t = none) :
    parseBlocks (c :: t) = parseBlocks t := by
  show parseBlocksF (c :: t).length (c :: t) = _
  simp only [List.length_cons]
  unfold parseBlocksF
  by_cases hp : markS.isPrefixOf (c :: t)
  · simp only [hp, if_true, h2]
    rfl
  · simp only [hp, if_false]
    rfl

theorem parseBlocks_cons_neg {c : Char} {t : Str} (h1 : markS.isPrefixOf (c :: t) = false) :
    parseBlocks (c :: t) = parseBlocks t := by
  show parseBlocksF (c :: t).length (c :: t) = _
  simp only [List.length_cons]
  unfold parseBlocksF
  simp only [h1, Bool.false_eq_true, if_false]
  rfl

theorem nlMatch_cons_none {c : Char} {x : Str} (h1 : c ≠ '\r') (h2 : c ≠ '\n') :
    nlMatch (c :: x) = none := by
  unfold nlMatch
  split <;> simp_all

theorem termMatch_cons_none {c : Char} {x : Str} (h1 : c ≠ '\r') (h2 : c ≠ '\n') :
    termMatch (c :: x) = none := by
  unfold termMatch
  rw [nlMatch_cons_none h1 h2]

theorem sep1Match_cons_none {c : Char} {x : Str} (h1 : c ≠ '\r') (h2 : c ≠ '\n') :
    sep1Match (c :: x) = none := by
  unfold sep1Match
  rw [nlMatch_cons_none h1 h2]

theorem termMatch_lf (x : Str) :
    termMatch ('\n' :: x) = if markR.isPrefixOf x then some (x.drop 15) else none := rfl

theorem sep1Match_lf (x : Str) :
    sep1Match ('\n' :: x) = if markE.isPrefixOf x then nlMatch (x.drop 7) else none := rfl

theorem findTerm_cons (c : Char) (t : Str) :
    findTerm (c :: t) = match termMatch (c :: t) with
      | some rest => some ([], rest)
      | none => (findTerm t).map (fun p => (c :: p.1, p.2)) := rfl

theorem findSep1_cons (c : Char) (t : Str) :
    findSep1 (c :: t) = match (sep1Match (c :: t)).bind findTerm with
      | some (rep, rest) => some ([], rep, rest)
      | none => (findSep1 t).map (fun p => (c :: p.1, p.2.1, p.2.2)) := rfl

theorem findTerm_cons_some {c : Char} {t rest : Str} (h : termMatch (c :: t) = some rest) :
    findTerm (c :: t) = some ([], rest) := by
  rw [findTerm_cons, h]

theorem findTerm_cons_step {c : Char} {t : Str} (h : termMatch (c :: t) = none) :
    findTerm (c :: t) = (findTerm t).map (fun p => (c :: p.1, p.2)) := by
  rw [findTerm_cons, h]

theorem findSep1_cons_some {c : Char} {t rep rest : Str}
    (h : (sep1Match (c :: t)).bind findTerm = some (rep, rest)) :
    findSep1 (c :: t) = some ([], rep, rest) := by
  rw [findSep1_cons, h]

theorem findSep1_cons_step {c : Char} {t : Str}
    (h : (sep1Match (c :: t)).bind findTerm = none) :
    findSep1 (c :: t) = (findSep1 t).map (fun p => (c :: p.1, p.2.1, p.2.2)) := by
  rw [findSep1_cons, h]

theorem findTerm_append : ∀ (r : Str) {rest : Str}, '\r' ∉ r → ¬ sepEnd <:+: r →
    findTerm (r ++ '\n' :: (markR ++ rest)) = some (r, rest) := by
  intro r
  induction r with
  | nil =>
    intro rest _ _
    show findTerm ('\n' :: (markR ++ rest)) = some ([], rest)
    have ht : termMatch ('\n' :: (markR ++ rest)) = some rest := by
      rw [termMatch_lf]
      have hpre : markR.isPrefixOf (markR ++ rest) = true := by
        rw [List.isPrefixOf_iff_prefix]; exact List.prefix_append _ _
      rw [if_pos hpre]
      rw [show (15 : Nat) = markR.length from rfl, List.drop_left]
    exact findTerm_cons_some ht
  | cons c r' ih =>
    intro rest hcr hinf
    have hc_ne_r : c ≠ '\r' := fun h => hcr (h ▸ List.mem_cons_self c r')
    show findTerm (c :: (r' ++ '\n' :: (markR ++ rest))) = some (c :: r', rest)
    have ht : termMatch (c :: (r' ++ '\n' :: (markR ++ rest))) = none := by
      by_cases hcn : c = '\n'
      · subst hcn
        rw [termMatch_lf]
        have hnp : ¬ markR.isPrefixOf (r' ++ '\n' :: (markR ++ rest)) = true := by
          intro hcon
          rw [List.isPrefixOf_iff_prefix] at hcon
          rcases List.prefix_or_prefix_of_prefix hcon (List.prefix_append r' _) with hmr | hrm
          · exact hinf (List.IsPrefix.isInfix
              (List.cons_prefix_cons.mpr ⟨rfl, hmr⟩))
          · obtain ⟨u, hu⟩ := hrm
            cases u with
            | nil =>
              apply hinf
              have heq : sepEnd = '\n' :: r' := by
                rw [show sepEnd = '\n' :: markR from rfl, ← hu, List.append_nil]
              rw [heq]
            | cons d u' =>
              have hup : r' ++ (d :: u') <+: r' ++ '\n' :: (markR ++ rest) := by
                rw [hu]; exact hcon
              have hdu : (d :: u') <+: '\n' :: (markR ++ rest) :=
                (List.prefix_append_right_inj r').mp hup
              have hd : d = '\n' := (List.cons_prefix_cons.mp hdu).1
              have hmem : '\n' ∈ markR := by
                rw [← hu, hd]
                exact List.mem_append_right _ (List.mem_cons_self _ _)
              exact absurd hmem (by decide)
        rw [if_neg hnp]
      · exact termMatch_cons_none hc_ne_r hcn
    rw [findTerm_cons_step ht]
    rw [ih (fun h => hcr (List.mem_cons_of_mem _ h)) (fun h => hinf (List.infix_cons h))]
    rfl

theorem findSep1_append : ∀ (s : Str) {r rest : Str},
    '\r' ∉ s → ¬ sepMid <:+: s → ¬ ('\n' :: markE) <:+ s →
    '\r' ∉ r → ¬ sepEnd <:+: r →
    findSep1 (s ++ '\n' :: (markE ++ '\n' :: (r ++ '\n' :: (markR ++ rest))))
      = some (s, r, rest) := by
  intro s
  induction s with
  | nil =>
    intro r rest _ _ _ hr1 hr2
    show findSep1 ('\n' :: (markE ++ '\n' :: (r ++ '\n' :: (markR ++ rest))))
      = some ([], r, rest)
    have hsep : sep1Match ('\n' :: (markE ++ '\n' :: (r ++ '\n' :: (markR ++ rest))))
        = some (r ++ '\n' :: (markR ++ rest)) := by
      rw [sep1Match_lf]
      have hpre : markE.isPrefixOf (markE ++ '\n' :: (r ++ '\n' :: (markR ++ rest))) = true := by
        rw [List.isPrefixOf_iff_prefix]; exact List.prefix_append _ _
      rw [if_pos hpre]
      rw [show (7 : Nat) = markE.length from rfl, List.drop_left]
      rfl
    apply findSep1_cons_some
    rw [hsep, Option.some_bind]
    exact findTerm_append r hr1 hr2
  | cons c s' ih =>
    intro r rest hcr hinf hsuf hr1 hr2
    have hc_ne_r : c ≠ '\r' := fun h => hcr (h ▸ List.mem_cons_self c s')
    show findSep1 (c :: (s' ++ '\n' :: (markE ++ '\n' :: (r ++ '\n' :: (markR ++ rest)))))
      = some (c :: s', r, rest)
    have hsm : sep1Match (c :: (s' ++ '\n' :: (markE ++ '\n' :: (r ++ '\n' :: (markR ++ rest)))))
        = none := by
      by_cases hcn : c = '\n'
      · subst hcn
        rw [sep1Match_lf]
        by_cases hpe : markE.isPrefixOf
            (s' ++ '\n' :: (markE ++ '\n' :: (r ++ '\n' :: (markR ++ rest)))) = true
        · rw [if_pos hpe]
          rw [List.isPrefixOf_iff_prefix] at hpe
          rcases List.prefix_or_prefix_of_prefix hpe (List.prefix_append s' _) with hms | hsm
          · obtain ⟨v, hv⟩ := hms
            have hdrop : (s' ++ '\n' :: (markE ++ '\n' :: (r ++ '\n' :: (markR ++ rest)))).drop 7
                = v ++ '\n' :: (markE ++ '\n' :: (r ++ '\n' :: (markR ++ rest))) := by
              rw [← hv, List.append_assoc]
              exact List.drop_left' (by rfl)
            rw [hdrop]
            cases v with
            | nil =>
              exfalso
              apply hsuf
              have hse : s' = markE := by rw [← hv, List.append_nil]
              rw [hse]
            | cons d v' =>
              by_cases hdn : d = '\n'
              · exfalso
                apply hinf
                apply List.IsPrefix.isInfix
                subst hdn
                rw [show sepMid = '\n' :: (markE ++ ['\n']) from rfl]
                apply List.cons_prefix_cons.mpr
                refine ⟨rfl, ?_⟩
                rw [← hv]
                apply (List.prefix_append_right_inj markE).mpr
                exact List.cons_prefix_cons.mpr ⟨rfl, List.nil_prefix⟩
              · by_cases hdr : d = '\r'
                · exfalso
                  apply hcr
                  apply List.mem_cons_of_mem
                  rw [← hv]
                  subst hdr
                  exact List.mem_append_right _ (List.mem_cons_self _ _)
                · exact nlMatch_cons_none hdr hdn
          · obtain ⟨u, hu⟩ := hsm
            cases u with
            | nil =>
              exfalso
              apply hsuf
              have hse : s' = markE := by rw [← hu, List.append_nil]
              rw [hse]
            | cons d u' =>
              exfalso
              have hup : s' ++ (d :: u')
                  <+: s' ++ '\n' :: (markE ++ '\n' :: (r ++ '\n' :: (markR ++ rest))) := by
                rw [hu]; exact hpe
              have hdu := (List.prefix_append_right_inj s').mp hup
              have hd : d = '\n' := (List.cons_prefix_cons.mp hdu).1
              have hmem : '\n' ∈ markE := by
                rw [← hu, hd]
                exact List.mem_append_right _ (List.mem_cons_self _ _)
              exact absurd hmem (by decide)
        · rw [if_neg hpe]
      · exact sep1Match_cons_none hc_ne_r hcn
    rw [findSep1_cons_step (by rw [hsm]; rfl)]
    rw [ih (fun h => hcr (List.mem_cons_of_mem _ h))
        (fun h => hinf (List.infix_cons h))
        (fun h => hsuf (h.trans (List.suffix_cons c s')))
        hr1 hr2]
    rfl

theorem markS_eq : markS = '<' :: markS1 := rfl

theorem parseBlocks_renderBlock_append (b : Str × Str) (rest : Str)
    (hs : GoodSearch b.1) (hr : GoodReplace b.2) :
    parseBlocks (renderBlock b ++ rest) = b :: parseBlocks rest := by
  obtain ⟨hs1, hs2, hs3⟩ := hs
  obtain ⟨hr1, hr2⟩ := hr
  have hshape : renderBlock b ++ rest
      = '<' :: (markS1 ++ '\n' :: (b.1 ++ '\n' :: (markE ++ '\n' :: (b.2 ++ '\n' :: (markR ++ rest))))) := by
    rw [renderBlock, markS_eq]
    simp [List.append_assoc]
  rw [hshape]
  have hpre : markS.isPrefixOf
      ('<' :: (markS1 ++ '\n' :: (b.1 ++ '\n' :: (markE ++ '\n' :: (b.2 ++ '\n' :: (markR ++ rest)))))) = true := by
    rw [List.isPrefixOf_iff_prefix, markS_eq]
    exact List.cons_prefix_cons.mpr ⟨rfl, List.prefix_append _ _⟩
  have hblock : blockAt (markS1 ++ '\n' :: (b.1 ++ '\n' :: (markE ++ '\n' :: (b.2 ++ '\n' :: (markR ++ rest)))))
      = some (b.1, b.2, rest) := by
    unfold blockAt
    rw [List.drop_left' (show markS1.length = 13 from rfl)]
    rw [show nlMatch ('\n' :: (b.1 ++ '\n' :: (markE ++ '\n' :: (b.2 ++ '\n' :: (markR ++ rest)))))
        = some (b.1 ++ '\n' :: (markE ++ '\n' :: (b.2 ++ '\n' :: (markR ++ rest)))) from rfl]
    rw [Option.some_bind]
    exact findSep1_append b.1 hs1 hs2 hs3 hr1 hr2
  rw [parseBlocks_cons_pos hpre hblock]

theorem markS_not_prefix_lf {Z : Str} : markS.isPrefixOf ('\n' :: Z) = false := by
  rw [markS_eq]
  show (('<' == '\n') && markS1.isPrefixOf Z) = false
  simp

theorem parseBlocks_render : ∀ (bs : List (Str × Str)),
    (∀ b ∈ bs, GoodSearch b.1 ∧ GoodReplace b.2) →
    parseBlocks (joinLF (bs.map renderBlock)) = bs := by
  intro bs
  induction bs with
  | nil => intro _; rfl
  | cons b bs' ih =>
    intro hgood
    obtain ⟨hgs, hgr⟩ := hgood b (List.mem_cons_self _ _)
    cases bs' with
    | nil =>
      show parseBlocks (renderBlock b) = [b]
      have : renderBlock b = renderBlock b ++ [] := by simp
      rw [this, parseBlocks_renderBlock_append b [] hgs hgr]
      rfl
    | cons b2 bs'' =>
      show parseBlocks (renderBlock b ++ '\n' :: joinLF ((b2 :: bs'').map renderBlock))
        = b :: b2 :: bs''
      rw [parseBlocks_renderBlock_append b _ hgs hgr]
      rw [parseBlocks_cons_neg markS_not_prefix_lf]
      rw [ih (fun x hx => hgood x (List.mem_cons_of_mem _ hx))]

/-! ### Characterisation of `splitFirst` as the first occurrence -/

theorem splitFirst_of_isPrefix {pat s : Str} (h : pat.isPrefixOf s = true) :
    splitFirst pat s = some ([], s.drop pat.length) := by
  cases s with
  | nil =>
    have hp : pat = [] := by
      rw [List.isPrefixOf_iff_prefix] at h
      exact List.prefix_nil.mp h
    subst hp
    simp [splitFirst]
  | cons c t => simp [splitFirst, h]

theorem splitFirst_sound {pat : Str} : ∀ {s pre post : Str},
    splitFirst pat s = some (pre, post) →
    s = pre ++ pat ++ post ∧
      ∀ pre' post', s = pre' ++ pat ++ post' → pre.length ≤ pre'.length := by
  intro s
  induction s with
  | nil =>
    intro pre post h
    unfold splitFirst at h
    split at h
    · rename_i hp
      cases h
      rw [List.isPrefixOf_iff_prefix] at hp
      have hpat : pat = [] := List.prefix_nil.mp hp
      exact ⟨by simp [hpat], fun pre' post' _ => by simp⟩
    · cases h
  | cons c t ih =>
    intro pre post h
    unfold splitFirst at h
    by_cases hp : pat.isPrefixOf (c :: t) = true
    · rw [if_pos hp] at h
      cases h
      rw [List.isPrefixOf_iff_prefix] at hp
      obtain ⟨r, hr⟩ := hp
      have hd : (c :: t).drop pat.length = r := by
        rw [← hr]; exact List.drop_left _ _
      refine ⟨?_, fun pre' post' _ => by simp⟩
      rw [hd, ← hr]
      simp
    · rw [if_neg hp] at h
      cases hs : splitFirst pat t with
      | none => rw [hs] at h; cases h
      | some q =>
        obtain ⟨q1, q2⟩ := q
        rw [hs] at h
        simp only [Option.map_some', Option.some.injEq, Prod.mk.injEq] at h
        obtain ⟨h1, h2⟩ := h
        subst h1
        subst h2
        obtain ⟨ht, hmin⟩ := ih hs
        refine ⟨by simp [← List.append_assoc, ← ht], ?_⟩
        intro pre' post' he
        cases pre' with
        | nil =>
          exfalso
          apply hp
          rw [List.isPrefixOf_iff_prefix]
          exact ⟨post', by simpa using he.symm⟩
        | cons c' pre'' =>
          simp only [List.cons_append, List.cons.injEq] at he
          have := hmin pre'' post' he.2
          simp only [List.length_cons]
          omega

/-! ### Claim C1: search/replace replaces the first occurrence -/

/-- C1: for a `SearchReplaceDiff` edit consisting of one block whose
normalized search text occurs in the normalized content, `applySearchReplace`
replaces exactly the first occurrence span (the returned `pre`/`post` are a
first-occurrence decomposition), inserts the replacement verbatim, raises no
warning, applies blocks in document order by a left fold, and reproduces the
spec's concrete example. -/
theorem claim1_search_replace_first_occurrence
    (content se rep diff pre post : Str)
    (hparse : parseBlocks diff = [(se, rep)])
    (hsplit : splitFirst (normalizeLE se) (normalizeLE content) = some (pre, post)) :
    applySearchReplace content diff = (pre ++ rep ++ post, 0) ∧
    normalizeLE content = pre ++ normalizeLE se ++ post ∧
    (∀ pre' post', normalizeLE content = pre' ++ normalizeLE se ++ post' →
      pre.length ≤ pre'.length) ∧
    (∀ c d, applySearchReplace c d = (parseBlocks d).foldl applyBlock (c, 0)) ∧
    (applySearchReplace "line1\nline2\nline3".data
        "<<<<<<< SEARCH\nline2\n=======\nCHANGED\n>>>>>>> REPLACE".data).1
      = "line1\nCHANGED\nline3".data := by
  obtain ⟨hocc, hmin⟩ := splitFirst_sound hsplit
  refine ⟨?_, hocc, hmin, fun c d => rfl, by rfl⟩
  unfold applySearchReplace
  rw [hparse]
  simp [List.foldl, applyBlock, hsplit]

theorem claim1_witness :
    parseBlocks "<<<<<<< SEARCH\nline2\n=======\nCHANGED\n>>>>>>> REPLACE".data
      = [("line2".data, "CHANGED".data)] ∧
    applySearchReplace "line1\nline2\nline3".data
        "<<<<<<< SEARCH\nline2\n=======\nCHANGED\n>>>>>>> REPLACE".data
      = ("line1\n".data ++ "CHANGED".data ++ "\nline3".data, 0) :=
  ⟨by rfl,
   (claim1_search_replace_first_occurrence "line1\nline2\nline3".data "line2".data
     "CHANGED".data "<<<<<<< SEARCH\nline2\n=======\nCHANGED\n>>>>>>> REPLACE".data
     "line1\n".data "\nline3".data (by rfl) (by rfl)).1⟩

/-! ### Claim C6: unmatched search blocks are warnings, never failures -/

/-- C6: a block whose normalized search text does not occur leaves the content
exactly unchanged and raises exactly one warning; processing continues with
the remaining blocks through the left fold; an unterminated block yields no
block at all; and an unmatched single block returns the input with one
warning.  `applySearchReplace` is a total function, so the diff path cannot
throw. -/
theorem claim6_unmatched_block_noop :
    (∀ (content : Str) (w : Nat) (se rep : Str),
      splitFirst (normalizeLE se) (normalizeLE content) = none →
      applyBlock (content, w) (se, rep) = (content, w + 1)) ∧
    (∀ c d, applySearchReplace c d = (parseBlocks d).foldl applyBlock (c, 0)) ∧
    parseBlocks "<<<<<<< SEARCH\na\n=======\nb\n".data = [] ∧
    applySearchReplace "line1\nline2".data
        "<<<<<<< SEARCH\nnope\n=======\nX\n>>>>>>> REPLACE".data
      = ("line1\nline2".data, 1) := by
  refine ⟨?_, fun c d => rfl, by rfl, by rfl⟩
  intro content w se rep h
  simp [applyBlock, h]

theorem claim6_witness :
    splitFirst (normalizeLE "zzz".data) (normalizeLE "line1".data) = none ∧
    applyBlock ("line1".data, 0) ("zzz".data, "Y".data) = ("line1".data, 1) :=
  ⟨by rfl, claim6_unmatched_block_noop.1 "line1".data 0 "zzz".data "Y".data (by rfl)⟩

/-! ### Claim C9: FULL_REWRITE is verbatim and idempotent -/

/-- C9: a `FULL_REWRITE` edit step returns exactly the edit's content whatever
the prior working content was (including the empty string used when the file
does not exist on disk), and applying the same edit twice equals applying it
once. -/
theorem claim9_full_rewrite (st : Str × Nat) (e : Change)
    (h : e.ctype = CType.fullRewrite) :
    (applyEditStep st e).1 = e.content ∧
    applyEditStep (applyEditStep st e) e = applyEditStep st e := by
  simp [applyEditStep, h]

theorem claim9_witness :
    (applyEditStep ("old".data, 0)
        ⟨CType.fullRewrite, "a.ts".data, "x".data⟩).1 = "x".data ∧
    applyEditStep (applyEditStep ("old".data, 0)
        ⟨CType.fullRewrite, "a.ts".data, "x".data⟩)
        ⟨CType.fullRewrite, "a.ts".data, "x".data⟩
      = applyEditStep ("old".data, 0) ⟨CType.fullRewrite, "a.ts".data, "x".data⟩ :=
  claim9_full_rewrite ("old".data, 0) ⟨CType.fullRewrite, "a.ts".data, "x".data⟩ rfl

/-! ### Claim C2: PATCH path vs direct hunk interpretation -/

/-- C2 counterexample: a `PATCH` envelope whose hunk contains a
`>>>>>>> REPLACE` line inside the replacement.  Rendering the hunk to
search/replace text and re-parsing it (the PATCH code path) truncates the
replacement at the embedded marker, so the result differs from interpreting
the hunk directly as a search/replace block. -/
theorem claim2_counterexample :
    applySearchReplace "x".data
        (patchEnvelopeToDiffForFile
          "*** Update File: a\n@@\n-x\n+A\n+>>>>>>> REPLACE\n+B\n*** End Patch".data
          "a".data)
      ≠ (patchBlocks
          "*** Update File: a\n@@\n-x\n+A\n+>>>>>>> REPLACE\n+B\n*** End Patch".data
          "a".data).foldl applyBlock ("x".data, 0) := by
  decide

/-- C2 (amended): for every `PATCH` edit whose derived hunks contain no
carriage returns and no embedded `"\n=======\n"` / trailing `"\n======="` in a
search text nor embedded `"\n>>>>>>> REPLACE"` in a replace text, applying
the envelope through `patchEnvelopeToDiffForFile` followed by
`applySearchReplace` equals interpreting the hunks directly as search/replace
blocks folded in order. -/
theorem claim2_patch_diff_agreement (patch target content : Str)
    (hgood : ∀ b ∈ patchBlocks patch target, GoodSearch b.1 ∧ GoodReplace b.2) :
    applySearchReplace content (patchEnvelopeToDiffForFile patch target)
      = (patchBlocks patch target).foldl applyBlock (content, 0) := by
  unfold applySearchReplace patchEnvelopeToDiffForFile
  rw [parseBlocks_render _ hgood]

theorem claim2_witness :
    (∀ b ∈ patchBlocks "*** Update File: a\n@@\n ctx\n-old\n+new\n*** End Patch".data
        "a".data, GoodSearch b.1 ∧ GoodReplace b.2) ∧
    applySearchReplace "pre\nctx\nold\npost".data
        (patchEnvelopeToDiffForFile
          "*** Update File: a\n@@\n ctx\n-old\n+new\n*** End Patch".data "a".data)
      = (patchBlocks "*** Update File: a\n@@\n ctx\n-old\n+new\n*** End Patch".data
          "a".data).foldl applyBlock ("pre\nctx\nold\npost".data, 0) := by
  have hpb : patchBlocks "*** Update File: a\n@@\n ctx\n-old\n+new\n*** End Patch".data
      "a".data = [("ctx\nold".data, "ctx\nnew".data)] := by rfl
  have hg : ∀ b ∈ patchBlocks "*** Update File: a\n@@\n ctx\n-old\n+new\n*** End Patch".data
      "a".data, GoodSearch b.1 ∧ GoodReplace b.2 := by
    intro b hb
    rw [hpb] at hb
    simp only [List.mem_singleton] at hb
    subst hb
    exact ⟨⟨by decide, by decide, by decide⟩, by decide, by decide⟩
  exact ⟨hg, claim2_patch_diff_agreement _ _ _ hg⟩

/-! ### `splitFirst` completeness and the exact-occurrence lemma for `qTerm` -/

theorem splitFirst_complete {pat : Str} : ∀ {s : Str}, splitFirst pat s = none →
    ∀ pre post, s ≠ pre ++ pat ++ post := by
  intro s
  induction s with
  | nil =>
    intro h pre post he
    unfold splitFirst at h
    split at h
    · cases h
    · rename_i hp
      apply hp
      have h0 : pre ++ (pat ++ post) = [] := by rw [← List.append_assoc]; exact he.symm
      rw [List.append_eq_nil] at h0
      have h1 := h0.2
      rw [List.append_eq_nil] at h1
      rw [h1.1]
      rfl
  | cons c t ih =>
    intro h pre post he
    unfold splitFirst at h
    by_cases hp : pat.isPrefixOf (c :: t) = true
    · rw [if_pos hp] at h; cases h
    · rw [if_neg hp] at h
      cases hs : splitFirst pat t with
      | some q => rw [hs] at h; simp at h
      | none =>
        cases pre with
        | nil =>
          apply hp
          rw [List.isPrefixOf_iff_prefix]
          exact ⟨post, by simpa using he.symm⟩
        | cons c0 pre' =>
          simp only [List.cons_append, List.cons.injEq] at he
          exact ih hs pre' post he.2

/-- When the terminator `>>>>>>> REPLACE\"` has no occurrence in `mid ++ qTerm`
before the final one, the lazy capture splits `mid ++ qTerm ++ b` exactly at
that final occurrence. -/
theorem splitFirst_exact {mid b : Str}
    (hq : ∀ k, k < mid.length → qTerm.isPrefixOf ((mid ++ qTerm).drop k) = false) :
    splitFirst qTerm (mid ++ qTerm ++ b) = some (mid, b) := by
  cases h : splitFirst qTerm (mid ++ qTerm ++ b) with
  | none => exact absurd rfl (splitFirst_complete h mid b)
  | some q =>
    obtain ⟨p1, p2⟩ := q
    obtain ⟨he, hmin⟩ := splitFirst_sound h
    have hle : p1.length ≤ mid.length := hmin mid b rfl
    by_cases heq : p1.length = mid.length
    · rw [List.append_assoc, List.append_assoc] at he
      obtain ⟨h1, h2⟩ := List.append_inj he heq.symm
      have h3 : b = p2 := List.append_cancel_left h2
      rw [h1, h3]
    · exfalso
      have hlt : p1.length < mid.length := by omega
      have htk : (mid ++ qTerm).take (p1.length + 16) = p1 ++ qTerm := by
        have e1 : ((mid ++ qTerm) ++ b).take (p1.length + 16)
            = (mid ++ qTerm).take (p1.length + 16) :=
          List.take_append_of_le_length (by
            simp only [List.length_append]
            have h16 : qTerm.length = 16 := rfl
            omega)
        have e2 : ((p1 ++ qTerm) ++ p2).take (p1.length + 16) = p1 ++ qTerm :=
          List.take_left' (by
            simp only [List.length_append]
            have h16 : qTerm.length = 16 := rfl
            omega)
        rw [← e1, he, e2]
      have hdec : mid ++ qTerm = p1 ++ (qTerm ++ (mid ++ qTerm).drop (p1.length + 16)) := by
        conv_lhs => rw [← List.take_append_drop (p1.length + 16) (mid ++ qTerm)]
        rw [htk, List.append_assoc]
      have hpre : qTerm.isPrefixOf ((mid ++ qTerm).drop p1.length) = true := by
        rw [hdec]
        rw [List.drop_left p1 (qTerm ++ (mid ++ qTerm).drop (p1.length + 16))]
        rw [List.isPrefixOf_iff_prefix]
        exact List.prefix_append _ _
      have hfalse := hq p1.length hlt
      rw [hpre] at hfalse
      exact absurd hfalse (by decide)

/-! ### Escaping and whitespace lemmas -/

theorem escBack_cons (c : Char) (t : Str) :
    escBack (c :: t) = if c = '\\' then '\\' :: '\\' :: escBack t else c :: escBack t := rfl

theorem escQuote_cons (c : Char) (t : Str) :
    escQuote (c :: t) = if c = '"' then '\\' :: '"' :: escQuote t else c :: escQuote t := rfl

theorem escSpec_cons (c : Char) (t : Str) :
    escSpec (c :: t)
      = (if c = '\\' then ['\\', '\\'] else if c = '"' then ['\\', '"'] else [c])
          ++ escSpec t := rfl

/-- `escDiff` (the source's two chained `replace` calls) acts per character:
it doubles backslashes, escapes quotes and keeps everything else. -/
theorem escDiff_eq_escSpec : ∀ g : Str, escDiff g = escSpec g := by
  intro g
  induction g with
  | nil => rfl
  | cons c t ih =>
    have ih' : escQuote (escBack t) = escSpec t := ih
    by_cases hb : c = '\\'
    · subst hb
      show escQuote (escBack ('\\' :: t)) = escSpec ('\\' :: t)
      rw [show escBack ('\\' :: t) = '\\' :: '\\' :: escBack t by
        rw [escBack_cons, if_pos (show ('\\' : Char) = '\\' from rfl)]]
      rw [show escQuote ('\\' :: '\\' :: escBack t) = '\\' :: '\\' :: escQuote (escBack t) by
        rw [escQuote_cons, if_neg (by decide : ¬ ('\\' : Char) = '"'), escQuote_cons,
          if_neg (by decide : ¬ ('\\' : Char) = '"')]]
      rw [show escSpec ('\\' :: t) = '\\' :: '\\' :: escSpec t by
        rw [escSpec_cons, if_pos (show ('\\' : Char) = '\\' from rfl)]; rfl]
      rw [ih']
    · by_cases hqc : c = '"'
      · subst hqc
        show escQuote (escBack ('"' :: t)) = escSpec ('"' :: t)
        rw [show escBack ('"' :: t) = '"' :: escBack t by
          rw [escBack_cons, if_neg (by decide : ¬ ('"' : Char) = '\\')]]
        rw [show escQuote ('"' :: escBack t) = '\\' :: '"' :: escQuote (escBack t) by
          rw [escQuote_cons, if_pos (show ('"' : Char) = '"' from rfl)]]
        rw [show escSpec ('"' :: t) = '\\' :: '"' :: escSpec t by
          rw [escSpec_cons, if_neg (by decide : ¬ ('"' : Char) = '\\'),
            if_pos (show ('"' : Char) = '"' from rfl)]; rfl]
        rw [ih']
      · show escQuote (escBack (c :: t)) = escSpec (c :: t)
        rw [show escBack (c :: t) = c :: escBack t by rw [escBack_cons, if_neg hb]]
        rw [show escQuote (c :: escBack t) = c :: escQuote (escBack t) by
          rw [escQuote_cons, if_neg hqc]]
        rw [show escSpec (c :: t) = c :: escSpec t by
          rw [escSpec_cons, if_neg hb, if_neg hqc]; rfl]
        rw [ih']

theorem dropWhile_isWS_append : ∀ {w : Str}, (∀ c ∈ w, isWS c = true) →
    ∀ s : Str, (w ++ s).dropWhile isWS = s.dropWhile isWS := by
  intro w
  induction w with
  | nil => intro _ s; rfl
  | cons c t ih =>
    intro h s
    have hc : isWS c = true := h c (List.mem_cons_self c t)
    have ht := ih (fun d hd => h d (List.mem_cons_of_mem _ hd)) s
    rw [List.cons_append, List.dropWhile_cons_of_pos hc]
    exact ht

theorem wsColon_ws {w : Str} (hw : ∀ c ∈ w, isWS c = true) (rest : Str) :
    wsColon (w ++ ':' :: rest) = some rest := by
  unfold wsColon
  rw [dropWhile_isWS_append hw]
  rw [List.dropWhile_cons_of_neg (by decide)]
  rfl

theorem wsQuote_ws {w : Str} (hw : ∀ c ∈ w, isWS c = true) (rest : Str) :
    wsQuote (w ++ '"' :: rest) = some rest := by
  unfold wsQuote
  rw [dropWhile_isWS_append hw]
  rw [List.dropWhile_cons_of_neg (by decide)]
  rfl

/-! ### `normalizeJsonLikeResponse` unfolding lemmas -/

theorem wsColon_length {s t : Str} (h : wsColon s = some t) : t.length < s.length := by
  unfold wsColon at h
  split at h
  · rename_i t0 heq
    cases h
    have hle := (List.dropWhile_sublist (l := s) isWS).length_le
    rw [heq] at hle
    simp only [List.length_cons] at hle
    omega
  · cases h

theorem wsQuote_length {s t : Str} (h : wsQuote s = some t) : t.length < s.length := by
  unfold wsQuote at h
  split at h
  · rename_i t0 heq
    cases h
    have hle := (List.dropWhile_sublist (l := s) isWS).length_le
    rw [heq] at hle
    simp only [List.length_cons] at hle
    omega
  · cases h

theorem matchOcc_length {s g rest : Str} (h : matchOcc s = some (g, rest)) :
    rest.length < s.length := by
  unfold matchOcc at h
  split at h
  · rename_i hkey
    rw [Option.bind_eq_some] at h
    obtain ⟨s2, hc, h2⟩ := h
    rw [Option.bind_eq_some] at h2
    obtain ⟨s4, hq2, h3⟩ := h2
    split at h3
    · cases hsf : splitFirst qTerm (s4.drop 14) with
      | none => rw [hsf] at h3; cases h3
      | some p =>
        obtain ⟨p1, p2⟩ := p
        rw [hsf] at h3
        simp only [Option.map_some', Option.some.injEq, Prod.mk.injEq] at h3
        obtain ⟨_, hrest⟩ := h3
        subst hrest
        obtain ⟨hdec, _⟩ := splitFirst_sound hsf
        have hlen : (s4.drop 14).length = p1.length + qTerm.length + p2.length := by
          rw [hdec]; simp only [List.length_append]
        have h14 : (s4.drop 14).length ≤ s4.length := by
          simp only [List.length_drop]; omega
        have hc1 := wsColon_length hc
        have hq1 := wsQuote_length hq2
        have hd9 : (s.drop 9).length ≤ s.length := by
          simp only [List.length_drop]; omega
        have hqt : qTerm.length = 16 := rfl
        omega
    · cases h3
  · cases h

theorem njlrF_congr : ∀ {fuel fuel' : Nat} {s : Str},
    s.length ≤ fuel → s.length ≤ fuel' → njlrF fuel s = njlrF fuel' s := by
  intro fuel
  induction fuel with
  | zero =>
    intro fuel' s hs _
    have : s = [] := List.eq_nil_of_length_eq_zero (Nat.le_zero.mp hs)
    subst this
    cases fuel' <;> rfl
  | succ fuel ih =>
    intro fuel' s hs hs'
    cases s with
    | nil => cases fuel' <;> rfl
    | cons c t =>
      cases fuel' with
      | zero => simp at hs'
      | succ f' =>
        simp only [List.length_cons] at hs hs'
        show njlrF (fuel + 1) (c :: t) = njlrF (f' + 1) (c :: t)
        unfold njlrF
        cases hm : matchOcc (c :: t) with
        | some p =>
          obtain ⟨g, rest⟩ := p
          have hr := matchOcc_length hm
          simp only [List.length_cons] at hr
          simp only [hm]
          show replOcc g ++ njlrF fuel rest = replOcc g ++ njlrF f' rest
          rw [ih (show rest.length ≤ fuel by omega) (show rest.length ≤ f' by omega)]
        | none =>
          simp only [hm]
          show c :: njlrF fuel t = c :: njlrF f' t
          exact congrArg (fun x => c :: x)
            (ih (show t.length ≤ fuel by omega) (show t.length ≤ f' by omega))

theorem njlr_cons_pos {c : Char} {t g rest : Str} (h : matchOcc (c :: t) = some (g, rest)) :
    normalizeJsonLikeResponse (c :: t) = replOcc g ++ normalizeJsonLikeResponse rest := by
  have hr := matchOcc_length h
  simp only [List.length_cons] at hr
  show njlrF (c :: t).length (c :: t) = _
  simp only [List.length_cons]
  unfold njlrF
  simp only [h]
  show replOcc g ++ njlrF t.length rest = replOcc g ++ normalizeJsonLikeResponse rest
  have hc : njlrF t.length rest = njlrF rest.length rest :=
    njlrF_congr (by omega) (le_refl _)
  rw [hc]
  rfl

theorem njlr_cons_neg {c : Char} {t : Str} (h : matchOcc (c :: t) = none) :
    normalizeJsonLikeResponse (c :: t) = c :: normalizeJsonLikeResponse t := by
  show njlrF (c :: t).length (c :: t) = _
  simp only [List.length_cons]
  unfold njlrF
  simp only [h]
  rfl

/-! ### First-successful-parse characterisation -/

theorem jparse_nil : jparse [] = none := rfl

theorem firstParse_cons_eq (c : Str) (cs : List Str) (hc : ¬ c = []) :
    firstParse (c :: cs) = match jparse c with
      | some v => some v
      | none => firstParse cs := by
  show (if c = [] then firstParse cs else match jparse c with
      | some v => some v
      | none => firstParse cs) = _
  rw [if_neg hc]

theorem firstParse_some : ∀ {cs : List Str} {v : JVal}, firstParse cs = some v →
    ∃ pre c suf, cs = pre ++ c :: suf ∧ jparse c = some v ∧ ∀ p ∈ pre, jparse p = none := by
  intro cs
  induction cs with
  | nil => intro v h; cases h
  | cons c cs ih =>
    intro v h
    by_cases hc : c = []
    · subst hc
      have hstep : firstParse ([] :: cs) = firstParse cs := rfl
      rw [hstep] at h
      obtain ⟨pre, c1, suf, h1, h2, h3⟩ := ih h
      refine ⟨[] :: pre, c1, suf, by rw [h1]; rfl, h2, ?_⟩
      intro p hp
      rcases List.mem_cons.mp hp with rfl | hp2
      · exact jparse_nil
      · exact h3 p hp2
    · rw [firstParse_cons_eq c cs hc] at h
      cases hj : jparse c with
      | some w =>
        rw [hj] at h
        cases h
        exact ⟨[], c, cs, rfl, hj, by intro p hp; cases hp⟩
      | none =>
        rw [hj] at h
        obtain ⟨pre, c1, suf, h1, h2, h3⟩ := ih h
        refine ⟨c :: pre, c1, suf, by rw [h1]; rfl, h2, ?_⟩
        intro p hp
        rcases List.mem_cons.mp hp with rfl | hp2
        · exact hj
        · exact h3 p hp2

theorem firstParse_none : ∀ {cs : List Str}, firstParse cs = none →
    ∀ c ∈ cs, jparse c = none := by
  intro cs
  induction cs with
  | nil => intro _ c hc; cases hc
  | cons c cs ih =>
    intro h p hp
    by_cases hc : c = []
    · subst hc
      have hstep : firstParse ([] :: cs) = firstParse cs := rfl
      rw [hstep] at h
      rcases List.mem_cons.mp hp with rfl | hp2
      · exact jparse_nil
      · exact ih h p hp2
    · rw [firstParse_cons_eq c cs hc] at h
      cases hj : jparse c with
      | some w => rw [hj] at h; cases h
      | none =>
        rw [hj] at h
        rcases List.mem_cons.mp hp with rfl | hp2
        · exact hj
        · exact ih h p hp2

/-! ### Claim C3: ordered candidate extraction, first parse wins -/

/-- C3: the normalization pipeline first repairs unescaped diff literals in
the trimmed text, then tries the ordered candidates — the fence-derived
candidate (interior of the first fenced block with an optional `json` tag
stripped, or the fence-stripped whole text when the fence is unterminated),
the whole normalized text, the first-`[`-to-last-`]` span, and the
first-`{`-to-last-`}` span — each as a strict JSON parse; the produced value
is the value of the first candidate that parses, and if no candidate parses
the response is rejected. -/
theorem claim3_candidate_pipeline :
    (∀ t, candidatesOf t
      = fenceCandidates t ++ [t] ++ bracketCandidate t '[' ']'
          ++ bracketCandidate t '{' '}') ∧
    (∀ input, parseStage input
      = firstParse (candidatesOf (normalizeJsonLikeResponse (trimStr input)))) ∧
    (∀ input v, parseStage input = some v →
      ∃ pre c suf,
        candidatesOf (normalizeJsonLikeResponse (trimStr input)) = pre ++ c :: suf ∧
        jparse c = some v ∧ ∀ p ∈ pre, jparse p = none) ∧
    (∀ input, parseStage input = none →
      ∀ c ∈ candidatesOf (normalizeJsonLikeResponse (trimStr input)), jparse c = none) ∧
    parseStage "```json\n[1, 2]\n``` trailing prose".data
      = some (JVal.jarr [JVal.jnum "1".data, JVal.jnum "2".data]) := by
  refine ⟨fun t => rfl, fun input => rfl, ?_, ?_, by rfl⟩
  · intro input v h
    exact firstParse_some h
  · intro input h
    exact firstParse_none h

theorem claim3_witness :
    ∃ pre c suf,
      candidatesOf (normalizeJsonLikeResponse
          (trimStr "```json\n[1, 2]\n``` trailing prose".data))
        = pre ++ c :: suf ∧
      jparse c = some (JVal.jarr [JVal.jnum "1".data, JVal.jnum "2".data]) ∧
      ∀ p ∈ pre, jparse p = none :=
  claim3_candidate_pipeline.2.2.1 _ _ (by rfl)

/-! ### Claim C5: coercion of bare arrays and status-less objects -/

/-- C5: a parsed array is coerced to a `COMPLETED` change-set carrying the
array as `code_changes`; an object with no `status` field but an array-valued
`code_changes` gets `status = COMPLETED` with its other fields kept; the
bare-array example parses to a `COMPLETED` change-set with exactly one
edit. -/
theorem claim5_coercion :
    (∀ xs, coerce (JVal.jarr xs)
      = JVal.jobj [("status".data, JVal.jstr "COMPLETED".data),
          ("code_changes".data, JVal.jarr xs)]) ∧
    (∀ fs ys, getField fs "status".data = none →
      getField fs "code_changes".data = some (JVal.jarr ys) →
      coerce (JVal.jobj fs)
        = JVal.jobj (setField fs "status".data (JVal.jstr "COMPLETED".data))) ∧
    (parseStage
        "[\x7b\"file_path\": \"a.ts\", \"type\": \"FULL_REWRITE\", \"content\": \"x\"\x7d]".data).map
        coerce
      = some (JVal.jobj [("status".data, JVal.jstr "COMPLETED".data),
          ("code_changes".data, JVal.jarr [JVal.jobj
            [("file_path".data, JVal.jstr "a.ts".data),
             ("type".data, JVal.jstr "FULL_REWRITE".data),
             ("content".data, JVal.jstr "x".data)]])]) := by
  refine ⟨fun xs => rfl, ?_, by rfl⟩
  intro fs ys hst hcc
  unfold coerce
  simp only [hst, hcc]
  rfl

theorem claim5_witness :
    getField [("code_changes".data, JVal.jarr [])] "status".data = none ∧
    coerce (JVal.jobj [("code_changes".data, JVal.jarr [])])
      = JVal.jobj (setField [("code_changes".data, JVal.jarr [])] "status".data
          (JVal.jstr "COMPLETED".data)) :=
  ⟨by rfl, claim5_coercion.2.1 [("code_changes".data, JVal.jarr [])] [] (by rfl) (by rfl)⟩

/-! ### Claim C7: no mutation on unparseable or unknown-status responses -/

/-- C7 counterexample: the response text `null` parses (to JSON `null`), has
no `status`, and yet the handler does not warn-and-return — `data.status` on
`null` throws a TypeError, modelled by `Except.error`. -/
theorem claim7_counterexample :
    parseStage "null".data = some JVal.jnull ∧
    handleAIResponse [] ⟨1, []⟩ "null".data = Except.error () := by
  exact ⟨by rfl, by rfl⟩

/-- C7 (amended): for an unparseable response the handler reports an error
and changes nothing — the round index, the staged rounds and the workspace
writes are untouched; for a response that parses to a non-null value whose
status is neither `COMPLETED` nor `NEED_CONTEXT`, the handler raises exactly
one warning and changes nothing.  (A response parsing to JSON `null` instead
throws, see the counterexample.) -/
theorem claim7_no_mutation_on_error_or_unknown :
    (∀ ws st input, parseStage input = none →
      handleAIResponse ws st input
        = .ok { action := "ERROR".data, round := st.round, rounds := st.rounds,
                wsWrites := [], appliedCount := 0, warnings := 0, errors := 1 }) ∧
    (∀ ws st input parsed stv, parseStage input = some parsed →
      statusOf (coerce parsed) = .ok stv →
      stv ≠ some "COMPLETED".data → stv ≠ some "NEED_CONTEXT".data →
      handleAIResponse ws st input
        = .ok { action := "UNKNOWN".data, round := st.round, rounds := st.rounds,
                wsWrites := [], appliedCount := 0, warnings := 1, errors := 0 }) := by
  constructor
  · intro ws st input h
    unfold handleAIResponse
    rw [h]
  · intro ws st input parsed stv h1 h2 h3 h4
    unfold handleAIResponse
    rw [h1]
    simp only [h2, if_neg h3, if_neg h4]

theorem claim7_witness :
    parseStage "just prose".data = none ∧
    handleAIResponse [] ⟨1, []⟩ "just prose".data
      = .ok { action := "ERROR".data, round := 1, rounds := [],
              wsWrites := [], appliedCount := 0, warnings := 0, errors := 1 } ∧
    parseStage "\x7b\"status\": \"DONE\"\x7d".data
      = some (JVal.jobj [("status".data, JVal.jstr "DONE".data)]) ∧
    handleAIResponse [] ⟨1, []⟩ "\x7b\"status\": \"DONE\"\x7d".data
      = .ok { action := "UNKNOWN".data, round := 1, rounds := [],
              wsWrites := [], appliedCount := 0, warnings := 1, errors := 0 } :=
  ⟨by rfl,
   claim7_no_mutation_on_error_or_unknown.1 [] ⟨1, []⟩ "just prose".data (by rfl),
   by rfl,
   claim7_no_mutation_on_error_or_unknown.2 [] ⟨1, []⟩ "\x7b\"status\": \"DONE\"\x7d".data
     (JVal.jobj [("status".data, JVal.jstr "DONE".data)]) (some "DONE".data)
     (by rfl) (by rfl) (by decide) (by decide)⟩

/-! ### Claim C4: NEED_CONTEXT round provisioning -/

/-- C4 counterexample: the staging area is at round 2, a snapshot round that
does not contain the project-structure listing; a `NEED_CONTEXT` response
requesting one existing file yields a round 3 that nevertheless contains the
listing (copied from round 1), so the new round's file set is not exactly
the existing requested files plus a copy taken from the immediately
preceding round. -/
theorem claim4_counterexample :
    lookupRound [(1, [structName, "src/a.ts".data]), (2, ["x".data])] 2
      = some ["x".data] ∧
    structName ∉ ["x".data] ∧
    handleAIResponse [("src/a.ts".data, "c".data)]
        ⟨2, [(1, [structName, "src/a.ts".data]), (2, ["x".data])]⟩
        "\x7b\"status\":\"NEED_CONTEXT\",\"request_files\":[\"src/a.ts\"]\x7d".data
      = .ok { action := "NEED_CONTEXT".data, round := 3,
              rounds := [(1, [structName, "src/a.ts".data]), (2, ["x".data]),
                (3, [structName, "src/a.ts".data])],
              wsWrites := [], appliedCount := 0, warnings := 0, errors := 0 } ∧
    ([structName, "src/a.ts".data] : List Str) ≠ ["src/a.ts".data] := by
  exact ⟨by rfl, by decide, by rfl, by decide⟩

/-- C4 (amended): on a `NEED_CONTEXT` change-set the round index is
incremented and the new round's file set is exactly the requested files that
exist on disk (a non-existent requested path is silently skipped, never an
error) plus — when round 1's staging directory has one — a copy of round 1's
project-structure listing; and for an all-string request list the staged
files are exactly the existing ones in request order. -/
theorem claim4_need_context (ws : List (Str × Str)) (st : StagingState) (input : Str)
    (parsed : JVal) (vs : List JVal) (files : List Str)
    (h1 : parseStage input = some parsed)
    (h2 : statusOf (coerce parsed) = .ok (some "NEED_CONTEXT".data))
    (h3 : reqField (coerce parsed) = some vs)
    (h4 : reqPaths ws vs = .ok files) :
    handleAIResponse ws st input
      = .ok { action := "NEED_CONTEXT".data, round := st.round + 1,
              rounds := st.rounds ++ [(st.round + 1, structPart st ++ files)],
              wsWrites := [], appliedCount := 0, warnings := 0, errors := 0 } ∧
    (∀ ps : List Str, reqPaths ws (ps.map JVal.jstr)
      = .ok (ps.filter (fun p => wsExists ws p))) := by
  constructor
  · unfold handleAIResponse
    rw [h1]
    simp only [h2, if_neg (by decide : ¬ (some "NEED_CONTEXT".data
      = some "COMPLETED".data)), if_pos rfl, h3, h4]
    rfl
  · intro ps
    induction ps with
    | nil => rfl
    | cons p ps ih =>
      show (reqPaths ws (ps.map JVal.jstr)).map
          (fun l => if wsExists ws p then p :: l else l)
        = .ok ((p :: ps).filter (fun q => wsExists ws q))
      rw [ih]
      simp only [List.filter_cons]
      by_cases hp : wsExists ws p
      · simp [hp, Except.map]
      · simp [hp, Except.map]

theorem claim4_witness :
    parseStage
        "\x7b\"status\":\"NEED_CONTEXT\",\"request_files\":[\"src/a.ts\",\"src/missing.ts\"]\x7d".data
      = some (JVal.jobj [("status".data, JVal.jstr "NEED_CONTEXT".data),
          ("request_files".data,
            JVal.jarr [JVal.jstr "src/a.ts".data, JVal.jstr "src/missing.ts".data])]) ∧
    reqPaths [("src/a.ts".data, "A".data)]
        [JVal.jstr "src/a.ts".data, JVal.jstr "src/missing.ts".data]
      = .ok ["src/a.ts".data] ∧
    handleAIResponse [("src/a.ts".data, "A".data)]
        ⟨1, [(1, [structName])]⟩
        "\x7b\"status\":\"NEED_CONTEXT\",\"request_files\":[\"src/a.ts\",\"src/missing.ts\"]\x7d".data
      = .ok { action := "NEED_CONTEXT".data, round := 2,
              rounds := [(1, [structName]),
                (2, structPart ⟨1, [(1, [structName])]⟩ ++ ["src/a.ts".data])],
              wsWrites := [], appliedCount := 0, warnings := 0, errors := 0 } :=
  ⟨by rfl, by rfl,
   (claim4_need_context [("src/a.ts".data, "A".data)] ⟨1, [(1, [structName])]⟩
     "\x7b\"status\":\"NEED_CONTEXT\",\"request_files\":[\"src/a.ts\",\"src/missing.ts\"]\x7d".data
     (JVal.jobj [("status".data, JVal.jstr "NEED_CONTEXT".data),
       ("request_files".data,
         JVal.jarr [JVal.jstr "src/a.ts".data, JVal.jstr "src/missing.ts".data])])
     [JVal.jstr "src/a.ts".data, JVal.jstr "src/missing.ts".data]
     ["src/a.ts".data] (by rfl) (by rfl) (by rfl) (by rfl)).1⟩

/-! ### Claim C8: the `"content"` diff-literal repair -/

/-- C8 counterexample: a `"content"` field whose diff text is already a
properly escaped JSON string (escaped newlines, no raw newline anywhere in
the input) is nevertheless rewritten — its backslashes are doubled — so the
repair is not restricted to literals spanning raw newlines and does not
leave already-escaped occurrences unchanged. -/
theorem claim8_counterexample :
    normalizeJsonLikeResponse
        "\x7b\"content\":\"<<<<<<< SEARCH\\nA\\n=======\\nB\\n>>>>>>> REPLACE\"\x7d".data
      ≠ "\x7b\"content\":\"<<<<<<< SEARCH\\nA\\n=======\\nB\\n>>>>>>> REPLACE\"\x7d".data ∧
    '\n' ∉ "\x7b\"content\":\"<<<<<<< SEARCH\\nA\\n=======\\nB\\n>>>>>>> REPLACE\"\x7d".data := by
  exact ⟨by decide, by decide⟩

/-- C8 (amended): every occurrence of `"content"`, optional whitespace, a
colon, optional whitespace and a double-quoted `<<<<<<< SEARCH … >>>>>>>
REPLACE` diff literal (the lazy capture ends at the first `>>>>>>> REPLACE`
followed by a quote) is rewritten unconditionally — whether or not the
literal spans raw newlines, and even if it is already properly escaped: the
whitespace around the colon is dropped (the prefix is normalised to
`"content":"`) and the captured literal is re-emitted through `escDiff`,
which maps every character to itself except that each backslash is doubled
and each double quote is escaped (raw newlines are not escaped). -/
theorem claim8_repair_escapes_always (w1 w2 mid b : Str)
    (hw1 : ∀ c ∈ w1, isWS c = true) (hw2 : ∀ c ∈ w2, isWS c = true)
    (hq : ∀ k, k < mid.length → qTerm.isPrefixOf ((mid ++ qTerm).drop k) = false) :
    normalizeJsonLikeResponse
        (keyLit ++ (w1 ++ ':' :: (w2 ++ '"' :: (markS ++ (mid ++ (markR ++ '"' :: b))))))
      = "\"content\":\"".data ++ escDiff (markS ++ mid ++ markR)
          ++ '"' :: normalizeJsonLikeResponse b ∧
    (∀ g : Str, escDiff g = escSpec g) := by
  constructor
  · have hm : matchOcc
        (keyLit ++ (w1 ++ ':' :: (w2 ++ '"' :: (markS ++ (mid ++ (markR ++ '"' :: b))))))
        = some (markS ++ mid ++ markR, b) := by
      unfold matchOcc
      rw [if_pos (show keyLit.isPrefixOf (keyLit
          ++ (w1 ++ ':' :: (w2 ++ '"' :: (markS ++ (mid ++ (markR ++ '"' :: b)))))) = true by
        rw [List.isPrefixOf_iff_prefix]; exact List.prefix_append _ _)]
      rw [List.drop_left' (show keyLit.length = 9 from rfl)]
      rw [wsColon_ws hw1]
      rw [Option.some_bind]
      rw [wsQuote_ws hw2]
      rw [Option.some_bind]
      rw [if_pos (show markS.isPrefixOf (markS ++ (mid ++ (markR ++ '"' :: b))) = true by
        rw [List.isPrefixOf_iff_prefix]; exact List.prefix_append _ _)]
      rw [List.drop_left' (show markS.length = 14 from rfl)]
      rw [show (mid ++ (markR ++ ('"' :: b)) : Str) = mid ++ (qTerm ++ b) from rfl]
      rw [← List.append_assoc]
      rw [splitFirst_exact hq]
      rfl
    have hfinal := njlr_cons_pos (show matchOcc ('"' :: ("content\"".data
        ++ (w1 ++ ':' :: (w2 ++ '"' :: (markS ++ (mid ++ (markR ++ '"' :: b)))))))
        = some (markS ++ mid ++ markR, b) from hm)
    show normalizeJsonLikeResponse ('"' :: ("content\"".data
        ++ (w1 ++ ':' :: (w2 ++ '"' :: (markS ++ (mid ++ (markR ++ '"' :: b))))))) = _
    rw [hfinal]
    show ("\"content\":\"".data ++ escDiff (markS ++ mid ++ markR) ++ ['"'])
        ++ normalizeJsonLikeResponse b
      = "\"content\":\"".data ++ escDiff (markS ++ mid ++ markR)
          ++ '"' :: normalizeJsonLikeResponse b
    simp [List.append_assoc]
  · exact escDiff_eq_escSpec

theorem claim8_witness :
    (∀ c ∈ (" ".data : Str), isWS c = true) ∧
    (∀ c ∈ ("\t\n".data : Str), isWS c = true) ∧
    (∀ k, k < ("\na = \"x\\y\";\n=======\nb\n".data : Str).length →
      qTerm.isPrefixOf ((("\na = \"x\\y\";\n=======\nb\n".data : Str) ++ qTerm).drop k)
        = false) ∧
    normalizeJsonLikeResponse
        (keyLit ++ (" ".data ++ ':' :: ("\t\n".data ++ '"' :: (markS
          ++ ("\na = \"x\\y\";\n=======\nb\n".data
            ++ (markR ++ '"' :: "\x7d".data))))))
      = "\"content\":\"".data
          ++ escDiff (markS ++ "\na = \"x\\y\";\n=======\nb\n".data ++ markR)
          ++ '"' :: normalizeJsonLikeResponse "\x7d".data ∧
    escDiff (markS ++ "\na = \"x\\y\";\n=======\nb\n".data ++ markR)
      = escSpec (markS ++ "\na = \"x\\y\";\n=======\nb\n".data ++ markR) :=
  ⟨by decide, by decide, by decide,
   (claim8_repair_escapes_always " ".data "\t\n".data
     "\na = \"x\\y\";\n=======\nb\n".data "\x7d".data
     (by decide) (by decide) (by decide)).1,
   (claim8_repair_escapes_always " ".data "\t\n".data
     "\na = \"x\\y\";\n=======\nb\n".data "\x7d".data
     (by decide) (by decide) (by decide)).2
     (markS ++ "\na = \"x\\y\";\n=======\nb\n".data ++ markR)⟩

/-! ### Claim C10: PATCH with no matching file section -/

theorem collectHunksAux_no_match {target : Str} : ∀ {lines : List Str},
    (∀ l ∈ lines, ¬ (updMark.isPrefixOf l = true ∧ trimStr (l.drop 16) = target)) →
    collectHunksAux target lines false [] = [] := by
  intro lines
  induction lines with
  | nil => intro _; rfl
  | cons l ls ih =>
    intro h
    have htail : ∀ l2 ∈ ls, ¬ (updMark.isPrefixOf l2 = true ∧ trimStr (l2.drop 16) = target) :=
      fun l2 hl2 => h l2 (List.mem_cons_of_mem _ hl2)
    unfold collectHunksAux
    by_cases hu : updMark.isPrefixOf l = true
    · rw [if_pos hu]
      have hne : (trimStr (l.drop 16) == target) = false := by
        rw [beq_eq_false_iff_ne]
        exact fun he => h l (List.mem_cons_self _ _) ⟨hu, he⟩
      rw [hne]
      exact ih htail
    · rw [if_neg hu]
      exact ih htail

/-- C10: a `PATCH` edit whose envelope contains no `*** Update File:` line
naming the edit's file converts to the empty diff text, applying that empty
diff returns the content unchanged with zero warnings, and in a
single-edit batch the handler still counts the file as applied (writes the
unchanged content back and snapshots the file into the next round). -/
theorem claim10_patch_no_section (ws : List (Str × Str)) (st : StagingState)
    (input : Str) (parsed v : JVal) (fp penv content : Str)
    (h1 : parseStage input = some parsed)
    (h2 : statusOf (coerce parsed) = .ok (some "COMPLETED".data))
    (h3 : ccField (coerce parsed) = some [v])
    (h4 : toChange v = .ok (some ⟨CType.patch, fp, penv⟩))
    (h5 : ∀ l ∈ splitCRLF penv, ¬ (updMark.isPrefixOf l = true ∧ trimStr (l.drop 16) = fp))
    (h6 : wsLookup ws fp = some content) :
    patchEnvelopeToDiffForFile penv fp = [] ∧
    (∀ c : Str, applySearchReplace c [] = (c, 0)) ∧
    handleAIResponse ws st input
      = .ok { action := "COMPLETED".data, round := st.round + 1,
              rounds := st.rounds ++ [(st.round + 1, [fp])],
              wsWrites := [(fp, content)], appliedCount := 1,
              warnings := 0, errors := 0 } := by
  have hconv : patchEnvelopeToDiffForFile penv fp = [] := by
    unfold patchEnvelopeToDiffForFile patchBlocks patchHunks
    rw [collectHunksAux_no_match h5]
    rfl
  refine ⟨hconv, fun c => rfl, ?_⟩
  have hproc : processFile ws (fp, [(⟨CType.patch, fp, penv⟩ : Change)]) = ((fp, content), 0) := by
    unfold processFile
    rw [h6]
    show ((fp, (applyEditStep (content, 0) ⟨CType.patch, fp, penv⟩).1),
      (applyEditStep (content, 0) ⟨CType.patch, fp, penv⟩).2) = ((fp, content), 0)
    unfold applyEditStep
    rw [hconv]
    rfl
  have htc : toChanges [v] = .ok [(⟨CType.patch, fp, penv⟩ : Change)] := by
    unfold toChanges
    rw [h4]
    rfl
  unfold handleAIResponse
  rw [h1]
  simp only [h2, h3]
  simp only [if_true]
  rw [htc]
  show Except.ok (completedBranch ws st [⟨CType.patch, fp, penv⟩]) = _
  unfold completedBranch groupByFile
  simp only [List.foldl, insertChange, List.map_cons, List.map_nil, hproc,
    List.length_cons, List.length_nil, List.sum_cons, List.sum_nil]
  norm_num

set_option maxRecDepth 40000 in
theorem claim10_witness :
    (∀ l ∈ splitCRLF "*** Update File: other\n@@\n-a\n+b\n*** End Patch".data,
      ¬ (updMark.isPrefixOf l = true ∧ trimStr (l.drop 16) = "x".data)) ∧
    handleAIResponse [("x".data, "body".data)] ⟨1, []⟩
        "[\x7b\"file_path\":\"x\",\"type\":\"PATCH\",\"content\":\"*** Update File: other\\n@@\\n-a\\n+b\\n*** End Patch\"\x7d]".data
      = .ok { action := "COMPLETED".data, round := 2,
              rounds := [(2, ["x".data])],
              wsWrites := [("x".data, "body".data)], appliedCount := 1,
              warnings := 0, errors := 0 } :=
  ⟨by decide,
   (claim10_patch_no_section [("x".data, "body".data)] ⟨1, []⟩
     "[\x7b\"file_path\":\"x\",\"type\":\"PATCH\",\"content\":\"*** Update File: other\\n@@\\n-a\\n+b\\n*** End Patch\"\x7d]".data
     (JVal.jarr [JVal.jobj [("file_path".data, JVal.jstr "x".data),
       ("type".data, JVal.jstr "PATCH".data),
       ("content".data, JVal.jstr "*** Update File: other\n@@\n-a\n+b\n*** End Patch".data)]])
     (JVal.jobj [("file_path".data, JVal.jstr "x".data),
       ("type".data, JVal.jstr "PATCH".data),
       ("content".data, JVal.jstr "*** Update File: other\n@@\n-a\n+b\n*** End Patch".data)])
     "x".data "*** Update File: other\n@@\n-a\n+b\n*** End Patch".data "body".data
     (by rfl) (by rfl) (by rfl) (by rfl) (by decide) (by rfl)).2.2⟩

end AIBridge

